import Mathlib

/-!
Shallow embedding of the `binary-utils` wire-format toolkit
(`src/binary-util/src/io.rs`, `src/binary-util/src/interfaces.rs`,
`src/binary-util/src/types.rs`) and of the code generated by its derive
macros (`src/codegen/src/io/structs.rs`, `src/binary-util-derive/src/io/enums.rs`).

Buffers are lists of byte values (`Nat`, always `< 256` when produced by a
writer).  Machine integers are `Nat`/`Int` with explicit `% 2 ^ w` where the
Rust code wraps.  A read returns `ReadResult`: `ok` with the value and the
advanced reader, `err` with the reader in the state the failed operation left
it, or `panicked` when the Rust code would abort (e.g. an out-of-bounds slice
index).  The write sink (`bytes::BytesMut`) is growable, so its
`remaining_mut()` check (`can_write!`) always passes and writers only fail on
the explicit error returns in the source.
-/

namespace BinaryUtil

/-- The `std::io::ErrorKind` values used by the crate. -/
inductive ErrorKind where
  | unexpectedEof
  | outOfMemory
  | invalidData
  | other
deriving DecidableEq

/-- A `std::io::Error`: a kind plus the message the crate attaches. -/
structure IOError where
  kind : ErrorKind
  msg : String
deriving DecidableEq

/-- `pub const ERR_EOB` in io.rs. -/
def ERR_EOB : String := "No more bytes left to be read in buffer"

/-- `pub const ERR_EOM` in io.rs. -/
def ERR_EOM : String := "Buffer is full, cannot write more bytes"

/-- `pub const ERR_VARINT_TOO_LONG` in io.rs. -/
def ERR_VARINT_TOO_LONG : String := "Varint is too long to be written to buffer"

def eofError : IOError := ⟨.unexpectedEof, ERR_EOB⟩

/-- `ByteReader`: `bytes::Bytes` drops consumed bytes from the front, so the
reader state is just the remaining byte list; `remaining()` is its length. -/
structure ByteReader where
  buf : List Nat
deriving DecidableEq

/-- Outcome of a `ByteReader` operation: success with the advanced reader,
an `std::io::Error` with the reader as the operation left it, or a Rust
panic (an abort, not an error value). -/
inductive ReadResult (α : Type) where
  | ok (val : α) (rest : ByteReader)
  | err (e : IOError) (rest : ByteReader)
  | panicked
deriving DecidableEq

def ReadResult.map (f : α → β) : ReadResult α → ReadResult β
  | .ok v r => .ok (f v) r
  | .err e r => .err e r
  | .panicked => .panicked

def ByteReader.remaining (r : ByteReader) : Nat := r.buf.length

/-- `ByteReader::peek_ahead` (io.rs:189-195): guard is
`can_read!(self, pos)`, i.e. `remaining >= pos`; on success it returns
`self.buf.chunk()[pos]`, which aborts when `pos` is out of bounds (that
index is reachable because the guard is off by one). -/
def ByteReader.peek_ahead (r : ByteReader) (pos : Nat) : ReadResult Nat :=
  if r.remaining ≥ pos then
    match r.buf[pos]? with
    | some b => .ok b r
    | none => .panicked
  else .err eofError r

/-- Big-endian value of a byte list (`bytes::Buf::get_uint` & friends). -/
def bytesToNatBE (l : List Nat) : Nat := l.foldl (fun acc b => acc * 256 + b) 0

/-- Shared body of the `read_fn!` macro instances and of
`read_uint`: check `can_read!(self, size)`, then consume `size` big-endian
bytes (io.rs:25-36, 345-351). -/
def ByteReader.read_fixed (r : ByteReader) (size : Nat) : ReadResult Nat :=
  if r.remaining ≥ size then
    .ok (bytesToNatBE (r.buf.take size)) ⟨r.buf.drop size⟩
  else .err eofError r

/-- Little-endian variant (`get_*_le`, `read_uint_le`). -/
def ByteReader.read_fixed_le (r : ByteReader) (size : Nat) : ReadResult Nat :=
  if r.remaining ≥ size then
    .ok (bytesToNatBE (r.buf.take size).reverse) ⟨r.buf.drop size⟩
  else .err eofError r

/-- Two's-complement reinterpretation of a `bits`-wide unsigned value. -/
def toSigned (bits : Nat) (n : Nat) : Int :=
  if n < 2 ^ (bits - 1) then (n : Int) else (n : Int) - 2 ^ bits

/-- Two's-complement `bits`-wide pattern of a signed value (`as uN`). -/
def toUnsigned (bits : Nat) (z : Int) : Nat := (z % (2 ^ bits : Nat)).toNat

def ByteReader.read_u8 (r : ByteReader) : ReadResult Nat := r.read_fixed 1
def ByteReader.read_i8 (r : ByteReader) : ReadResult Int :=
  (r.read_fixed 1).map (toSigned 8)
def ByteReader.read_u16 (r : ByteReader) : ReadResult Nat := r.read_fixed 2
def ByteReader.read_u16_le (r : ByteReader) : ReadResult Nat := r.read_fixed_le 2
def ByteReader.read_i16 (r : ByteReader) : ReadResult Int :=
  (r.read_fixed 2).map (toSigned 16)
def ByteReader.read_i16_le (r : ByteReader) : ReadResult Int :=
  (r.read_fixed_le 2).map (toSigned 16)
def ByteReader.read_u32 (r : ByteReader) : ReadResult Nat := r.read_fixed 4
def ByteReader.read_u32_le (r : ByteReader) : ReadResult Nat := r.read_fixed_le 4
def ByteReader.read_i32 (r : ByteReader) : ReadResult Int :=
  (r.read_fixed 4).map (toSigned 32)
def ByteReader.read_i32_le (r : ByteReader) : ReadResult Int :=
  (r.read_fixed_le 4).map (toSigned 32)
def ByteReader.read_u64 (r : ByteReader) : ReadResult Nat := r.read_fixed 8
def ByteReader.read_u64_le (r : ByteReader) : ReadResult Nat := r.read_fixed_le 8
def ByteReader.read_i64 (r : ByteReader) : ReadResult Int :=
  (r.read_fixed 8).map (toSigned 64)
def ByteReader.read_i64_le (r : ByteReader) : ReadResult Int :=
  (r.read_fixed_le 8).map (toSigned 64)
def ByteReader.read_u128 (r : ByteReader) : ReadResult Nat := r.read_fixed 16
def ByteReader.read_u128_le (r : ByteReader) : ReadResult Nat := r.read_fixed_le 16
def ByteReader.read_i128 (r : ByteReader) : ReadResult Int :=
  (r.read_fixed 16).map (toSigned 128)
def ByteReader.read_i128_le (r : ByteReader) : ReadResult Int :=
  (r.read_fixed_le 16).map (toSigned 128)

/-- `read_f32`/`read_f64` move the 4/8-byte big-endian bit pattern; floats
are modelled by those bit patterns (the codec never interprets them). -/
def ByteReader.read_f32 (r : ByteReader) : ReadResult Nat := r.read_fixed 4
def ByteReader.read_f32_le (r : ByteReader) : ReadResult Nat := r.read_fixed_le 4
def ByteReader.read_f64 (r : ByteReader) : ReadResult Nat := r.read_fixed 8
def ByteReader.read_f64_le (r : ByteReader) : ReadResult Nat := r.read_fixed_le 8

def ByteReader.read_uint (r : ByteReader) (size : Nat) : ReadResult Nat :=
  r.read_fixed size
def ByteReader.read_uint_le (r : ByteReader) (size : Nat) : ReadResult Nat :=
  r.read_fixed_le size
def ByteReader.read_int (r : ByteReader) (size : Nat) : ReadResult Int :=
  (r.read_fixed size).map (toSigned (8 * size))
def ByteReader.read_int_le (r : ByteReader) (size : Nat) : ReadResult Int :=
  (r.read_fixed_le size).map (toSigned (8 * size))

/-- `read_u24` (io.rs:205-215): outer `can_read!(self, 3)` guard around
`read_uint(3)` (whose error branch is then unreachable). -/
def ByteReader.read_u24 (r : ByteReader) : ReadResult Nat :=
  if r.remaining ≥ 3 then r.read_uint 3 else .err eofError r

def ByteReader.read_u24_le (r : ByteReader) : ReadResult Nat :=
  if r.remaining ≥ 3 then r.read_uint_le 3 else .err eofError r

/-- `read_i24`: `read_int(3)` sign-extends 3 bytes; the `as i32` cast is the
identity on the 24-bit signed range. -/
def ByteReader.read_i24 (r : ByteReader) : ReadResult Int :=
  if r.remaining ≥ 3 then r.read_int 3 else .err eofError r

def ByteReader.read_i24_le (r : ByteReader) : ReadResult Int :=
  if r.remaining ≥ 3 then r.read_int_le 3 else .err eofError r

/-- `read_bool` (io.rs:389-395): one byte, nonzero is true. -/
def ByteReader.read_bool (r : ByteReader) : ReadResult Bool :=
  match r.buf with
  | b :: rest => .ok (b != 0) ⟨rest⟩
  | [] => .err eofError r

/-- `char::from_u32` succeeds exactly on Unicode scalar values. -/
def isUnicodeScalar (c : Nat) : Bool :=
  c < 0xD800 || (0xE000 ≤ c && c < 0x110000)

/-- `read_char` (io.rs:379-387): `read_u32` then `char::from_u32`. -/
def ByteReader.read_char (r : ByteReader) : ReadResult Nat :=
  match r.read_u32 with
  | .ok c r' =>
    if isUnicodeScalar c then .ok c r' else .err ⟨.invalidData, "Invalid char"⟩ r'
  | .err e r' => .err e r'
  | .panicked => .panicked

/-- The shift sequence of `for i in (0..35).step_by(7)` in `read_var_u32`. -/
def shifts32 : List Nat := [0, 7, 14, 21, 28]

/-- The shift sequence of `for i in (0..70).step_by(7)` in `read_var_u64`. -/
def shifts64 : List Nat := [0, 7, 14, 21, 28, 35, 42, 49, 56, 63]

/-- Loop body shared by `read_var_u32` (io.rs:267-285) and `read_var_u64`
(io.rs:308-326): peek the byte at offset `interval`, accumulate its low 7
bits shifted by the loop's `i` (wrapping at the `width`-bit integer), stop
and `advance` when the continuation bit is clear, and fall through to the
overflow error when the shift list is exhausted. -/
def read_var_loop (r : ByteReader) (width : Nat) (overflowMsg : String) :
    List Nat → Nat → Nat → ReadResult Nat
  | [], _, _ => .err ⟨.other, overflowMsg⟩ r
  | i :: restShifts, num, interval =>
    match r.peek_ahead interval with
    | .ok byte _ =>
      let num' := num ||| (((byte &&& 0x7F) <<< i) % 2 ^ width)
      if byte &&& 0x80 == 0 then .ok num' ⟨r.buf.drop (interval + 1)⟩
      else read_var_loop r width overflowMsg restShifts num' (interval + 1)
    | .err e r' => .err e r'
    | .panicked => .panicked

def ByteReader.read_var_u32 (r : ByteReader) : ReadResult Nat :=
  read_var_loop r 32 "Varint overflow's 32-bit integer" shifts32 0 0

def ByteReader.read_var_u64 (r : ByteReader) : ReadResult Nat :=
  read_var_loop r 64 "Varint overflow's 64-bit integer" shifts64 0 0

/-- `(num >> 1) as iN ^ -((num & 1) as iN)`: the second operand's `N`-bit
pattern is all ones when `num` is odd and zero otherwise, so the xor is
taken on `N`-bit patterns and the result reinterpreted as signed. -/
def zigzag_decode (width : Nat) (num : Nat) : Int :=
  toSigned width ((num >>> 1) ^^^ (if num &&& 1 == 1 then 2 ^ width - 1 else 0))

def ByteReader.read_var_i32 (r : ByteReader) : ReadResult Int :=
  r.read_var_u32.map (zigzag_decode 32)

def ByteReader.read_var_i64 (r : ByteReader) : ReadResult Int :=
  r.read_var_u64.map (zigzag_decode 64)

/-- `read_string` (io.rs:400-414): `read_var_u64` length (`?` propagates its
error and keeps whatever state that read left), then `can_read` and a raw
copy of `len` bytes with no UTF-8 validation; strings are byte lists. -/
def ByteReader.read_string (r : ByteReader) : ReadResult (List Nat) :=
  match r.read_var_u64 with
  | .ok len r' =>
    if r'.remaining ≥ len then .ok (r'.buf.take len) ⟨r'.buf.drop len⟩
    else .err eofError r'
  | .err e r' => .err e r'
  | .panicked => .panicked

/-- `read_option` (io.rs:447-453): one bool byte, then `T::read` via the
supplied `Reader` implementation. -/
def ByteReader.read_option (r : ByteReader) (rd : ByteReader → ReadResult α) :
    ReadResult (Option α) :=
  match r.read_bool with
  | .ok b r' =>
    if b then
      match rd r' with
      | .ok v r'' => .ok (some v) r''
      | .err e r'' => .err e r''
      | .panicked => .panicked
    else .ok none r'
  | .err e r' => .err e r'
  | .panicked => .panicked

/-- Sequencing of fallible reads: the `?` operator on a `&mut` reader. -/
def ReadResult.bind : ReadResult α → (α → ByteReader → ReadResult β) → ReadResult β
  | .ok v r, f => f v r
  | .err e r, _ => .err e r
  | .panicked, _ => .panicked

/-- Element loop of `Reader for Vec<T>` (interfaces.rs:197-204):
`for _ in 0..len helper vec.push(T::read(buf)?)`. -/
def read_vec_elems (rd : ByteReader → ReadResult α) :
    Nat → ByteReader → ReadResult (List α)
  | 0, r => .ok [] r
  | n + 1, r =>
    (rd r).bind fun v r' =>
      (read_vec_elems rd n r').map (v :: ·)

/-- `Reader for Vec<T>` (interfaces.rs:193-205): `read_var_u32` count then
that many elements. -/
def ByteReader.read_vec (r : ByteReader) (rd : ByteReader → ReadResult α) :
    ReadResult (List α) :=
  r.read_var_u32.bind fun len r' => read_vec_elems rd len r'

/-- `SocketAddr` values: IPv4 octets + port, or IPv6 port, flow, eight
16-bit segments and scope id. -/
inductive SocketAddrM where
  | v4 (a b c d : Nat) (port : Nat)
  | v6 (port flow : Nat) (s0 s1 s2 s3 s4 s5 s6 s7 : Nat) (scope : Nat)
deriving DecidableEq

/-- `Reader for SocketAddr` (interfaces.rs:221-265): tag byte 4 or 6, the
family-specific payload, `InvalidData` otherwise.  The IPv6 arm reads and
discards the family `u16` and reassembles the address from eight `u16`
segments. -/
def ByteReader.read_socket_addr (r : ByteReader) : ReadResult SocketAddrM :=
  r.read_u8.bind fun tag r0 =>
    if tag = 4 then
      r0.read_u8.bind fun a r1 =>
      r1.read_u8.bind fun b r2 =>
      r2.read_u8.bind fun c r3 =>
      r3.read_u8.bind fun d r4 =>
      r4.read_u16.bind fun port r5 =>
        .ok (.v4 a b c d port) r5
    else if tag = 6 then
      r0.read_u16.bind fun _family r1 =>
      r1.read_u16.bind fun port r2 =>
      r2.read_u32.bind fun flow r3 =>
      r3.read_u16.bind fun s0 r4 =>
      r4.read_u16.bind fun s1 r5 =>
      r5.read_u16.bind fun s2 r6 =>
      r6.read_u16.bind fun s3 r7 =>
      r7.read_u16.bind fun s4 r8 =>
      r8.read_u16.bind fun s5 r9 =>
      r9.read_u16.bind fun s6 r10 =>
      r10.read_u16.bind fun s7 r11 =>
      r11.read_u32.bind fun scope r12 =>
        .ok (.v6 port flow s0 s1 s2 s3 s4 s5 s6 s7 scope) r12
    else .err ⟨.invalidData, "Invalid IP version"⟩ r0

/-- `ByteWriter`: a growable `bytes::BytesMut`, so `can_write!` (its
`remaining_mut() >= size` check) always passes. -/
structure ByteWriter where
  buf : List Nat
deriving DecidableEq

/-- Big-endian `size`-byte form of `num` (`bytes::BufMut::put_uint`:
the low `size` bytes, most significant first). -/
def natToBytesBE : Nat → Nat → List Nat
  | 0, _ => []
  | size + 1, num => natToBytesBE size (num >>> 8) ++ [num % 256]

def natToBytesLE (size num : Nat) : List Nat := (natToBytesBE size num).reverse

/-- Shared body of the `write_fn!` macro instances and `write_uint`:
`can_write!` always holds, so append the big-endian bytes (io.rs:38-50,
706-713). -/
def ByteWriter.write_fixed (w : ByteWriter) (size num : Nat) :
    Except IOError ByteWriter :=
  .ok ⟨w.buf ++ natToBytesBE size num⟩

def ByteWriter.write_fixed_le (w : ByteWriter) (size num : Nat) :
    Except IOError ByteWriter :=
  .ok ⟨w.buf ++ natToBytesLE size num⟩

def ByteWriter.write_u8 (w : ByteWriter) (num : Nat) : Except IOError ByteWriter :=
  w.write_fixed 1 num
def ByteWriter.write_i8 (w : ByteWriter) (num : Int) : Except IOError ByteWriter :=
  w.write_fixed 1 (toUnsigned 8 num)
def ByteWriter.write_u16 (w : ByteWriter) (num : Nat) : Except IOError ByteWriter :=
  w.write_fixed 2 num
def ByteWriter.write_u16_le (w : ByteWriter) (num : Nat) : Except IOError ByteWriter :=
  w.write_fixed_le 2 num
def ByteWriter.write_i16 (w : ByteWriter) (num : Int) : Except IOError ByteWriter :=
  w.write_fixed 2 (toUnsigned 16 num)
def ByteWriter.write_i16_le (w : ByteWriter) (num : Int) : Except IOError ByteWriter :=
  w.write_fixed_le 2 (toUnsigned 16 num)
def ByteWriter.write_u32 (w : ByteWriter) (num : Nat) : Except IOError ByteWriter :=
  w.write_fixed 4 num
def ByteWriter.write_u32_le (w : ByteWriter) (num : Nat) : Except IOError ByteWriter :=
  w.write_fixed_le 4 num
def ByteWriter.write_i32 (w : ByteWriter) (num : Int) : Except IOError ByteWriter :=
  w.write_fixed 4 (toUnsigned 32 num)
def ByteWriter.write_i32_le (w : ByteWriter) (num : Int) : Except IOError ByteWriter :=
  w.write_fixed_le 4 (toUnsigned 32 num)
def ByteWriter.write_u64 (w : ByteWriter) (num : Nat) : Except IOError ByteWriter :=
  w.write_fixed 8 num
def ByteWriter.write_u64_le (w : ByteWriter) (num : Nat) : Except IOError ByteWriter :=
  w.write_fixed_le 8 num
def ByteWriter.write_i64 (w : ByteWriter) (num : Int) : Except IOError ByteWriter :=
  w.write_fixed 8 (toUnsigned 64 num)
def ByteWriter.write_i64_le (w : ByteWriter) (num : Int) : Except IOError ByteWriter :=
  w.write_fixed_le 8 (toUnsigned 64 num)
def ByteWriter.write_u128 (w : ByteWriter) (num : Nat) : Except IOError ByteWriter :=
  w.write_fixed 16 num
def ByteWriter.write_u128_le (w : ByteWriter) (num : Nat) : Except IOError ByteWriter :=
  w.write_fixed_le 16 num
def ByteWriter.write_i128 (w : ByteWriter) (num : Int) : Except IOError ByteWriter :=
  w.write_fixed 16 (toUnsigned 128 num)
def ByteWriter.write_i128_le (w : ByteWriter) (num : Int) : Except IOError ByteWriter :=
  w.write_fixed_le 16 (toUnsigned 128 num)

/-- `write_f32`/`write_f64` write the float's bit pattern big-endian. -/
def ByteWriter.write_f32 (w : ByteWriter) (bits : Nat) : Except IOError ByteWriter :=
  w.write_fixed 4 bits
def ByteWriter.write_f32_le (w : ByteWriter) (bits : Nat) : Except IOError ByteWriter :=
  w.write_fixed_le 4 bits
def ByteWriter.write_f64 (w : ByteWriter) (bits : Nat) : Except IOError ByteWriter :=
  w.write_fixed 8 bits
def ByteWriter.write_f64_le (w : ByteWriter) (bits : Nat) : Except IOError ByteWriter :=
  w.write_fixed_le 8 bits

def ByteWriter.write_uint (w : ByteWriter) (num : Nat) (size : Nat) :
    Except IOError ByteWriter :=
  w.write_fixed size num
def ByteWriter.write_uint_le (w : ByteWriter) (num : Nat) (size : Nat) :
    Except IOError ByteWriter :=
  w.write_fixed_le size num
def ByteWriter.write_int (w : ByteWriter) (num : Int) (size : Nat) :
    Except IOError ByteWriter :=
  w.write_fixed size (toUnsigned 64 num)
def ByteWriter.write_int_le (w : ByteWriter) (num : Int) (size : Nat) :
    Except IOError ByteWriter :=
  w.write_fixed_le size (toUnsigned 64 num)

def ByteWriter.write_u24 (w : ByteWriter) (num : Nat) : Except IOError ByteWriter :=
  w.write_uint num 3
def ByteWriter.write_u24_le (w : ByteWriter) (num : Nat) : Except IOError ByteWriter :=
  w.write_uint_le num 3
def ByteWriter.write_i24 (w : ByteWriter) (num : Int) : Except IOError ByteWriter :=
  w.write_int num 3
def ByteWriter.write_i24_le (w : ByteWriter) (num : Int) : Except IOError ByteWriter :=
  w.write_int_le num 3

def ByteWriter.write_bool (w : ByteWriter) (b : Bool) : Except IOError ByteWriter :=
  .ok ⟨w.buf ++ [if b then 1 else 0]⟩

def ByteWriter.write_char (w : ByteWriter) (c : Nat) : Except IOError ByteWriter :=
  w.write_u32 c

/-- The `while x >= 0x80` loop of `write_var_u32` (io.rs:646-654):
emit `(x as u8) | 0x80` and shift by 7, then the final byte. -/
def write_var_u32_loop (x : Nat) (w : ByteWriter) : Except IOError ByteWriter :=
  if h : x ≥ 0x80 then
    match w.write_u8 ((x % 256) ||| 0x80) with
    | .ok w' => write_var_u32_loop (x >>> 7) w'
    | .error e => .error e
  else w.write_u8 (x % 256)
termination_by x
decreasing_by
  simp only [Nat.shiftRight_eq_div_pow]
  exact Nat.div_lt_self (by omega) (by norm_num)

def ByteWriter.write_var_u32 (w : ByteWriter) (num : Nat) :
    Except IOError ByteWriter :=
  write_var_u32_loop num w

/-- The zigzag map of the signed varint writers:
`!((num as uN) << 1)` when `num < 0` (bitwise not on an `N`-bit value is
xor with all ones), `(num as uN) << 1` otherwise. -/
def zigzag_encode (width : Nat) (num : Int) : Nat :=
  if num < 0 then
    ((toUnsigned width num <<< 1) % 2 ^ width) ^^^ (2 ^ width - 1)
  else
    (toUnsigned width num <<< 1) % 2 ^ width

/-- `write_var_i32` (io.rs:656-664). -/
def ByteWriter.write_var_i32 (w : ByteWriter) (num : Int) :
    Except IOError ByteWriter :=
  w.write_var_u32 (zigzag_encode 32 num)

/-- The `for _ in (0..70).step_by(7)` loop of `write_var_u64`
(io.rs:673-689): at most 10 bytes, with an error return after the loop. -/
def write_var_u64_loop (x : Nat) (w : ByteWriter) :
    Nat → Except IOError ByteWriter
  | 0 => .error ⟨.invalidData, ERR_VARINT_TOO_LONG⟩
  | fuel + 1 =>
    if x >>> 7 == 0 then w.write_u8 (x % 256)
    else
      match w.write_u8 ((x &&& 0x7F) ||| 0x80) with
      | .ok w' => write_var_u64_loop (x >>> 7) w' fuel
      | .error e => .error e

def ByteWriter.write_var_u64 (w : ByteWriter) (num : Nat) :
    Except IOError ByteWriter :=
  write_var_u64_loop (num &&& (2 ^ 64 - 1)) w 10

/-- `write_var_i64` (io.rs:691-699). -/
def ByteWriter.write_var_i64 (w : ByteWriter) (num : Int) :
    Except IOError ByteWriter :=
  w.write_var_u64 (zigzag_encode 64 num)

/-- `write_string` (io.rs:758-767): `write_var_u32(string.len() as u32)`
then the raw bytes. -/
def ByteWriter.write_string (w : ByteWriter) (s : List Nat) :
    Except IOError ByteWriter :=
  match w.write_var_u32 (s.length % 2 ^ 32) with
  | .ok w' => .ok ⟨w'.buf ++ s⟩
  | .error e => .error e

/-- `write_option` (io.rs:794-802): bool tag then the payload's `Writer`. -/
def ByteWriter.write_option (w : ByteWriter) (v : Option α)
    (wr : α → ByteWriter → Except IOError ByteWriter) :
    Except IOError ByteWriter :=
  match v with
  | some x =>
    match w.write_bool true with
    | .ok w' => wr x w'
    | .error e => .error e
  | none => w.write_bool false

/-- Element loop of `Writer for Vec<T>` (interfaces.rs:466-471). -/
def write_vec_elems (wr : α → ByteWriter → Except IOError ByteWriter) :
    List α → ByteWriter → Except IOError ByteWriter
  | [], w => .ok w
  | v :: vs, w =>
    match wr v w with
    | .ok w' => write_vec_elems wr vs w'
    | .error e => .error e

/-- `Writer for Vec<T>` (interfaces.rs:462-473):
`write_var_u32(self.len() as u32)` then each element. -/
def ByteWriter.write_vec (w : ByteWriter) (l : List α)
    (wr : α → ByteWriter → Except IOError ByteWriter) :
    Except IOError ByteWriter :=
  match w.write_var_u32 (l.length % 2 ^ 32) with
  | .ok w' => write_vec_elems wr l w'
  | .error e => .error e

/-- `Writer for SocketAddr` (interfaces.rs:493-517): tag byte, then for V4
the raw address octets and the port; for V6 a zero family `u16`, port,
flow, the 16 address octets (each segment big-endian) and the scope id. -/
def SocketAddrM.write (v : SocketAddrM) (w : ByteWriter) :
    Except IOError ByteWriter :=
  match v with
  | .v4 a b c d port =>
    match w.write_u8 4 with
    | .ok w1 => ByteWriter.write_u16 ⟨w1.buf ++ [a, b, c, d]⟩ port
    | .error e => .error e
  | .v6 port flow s0 s1 s2 s3 s4 s5 s6 s7 scope =>
    match w.write_u8 6 with
    | .ok w1 =>
      match w1.write_u16 0 with
      | .ok w2 =>
        match w2.write_u16 port with
        | .ok w3 =>
          match w3.write_u32 flow with
          | .ok w4 =>
            ByteWriter.write_u32
              ⟨w4.buf ++ (natToBytesBE 2 s0 ++ natToBytesBE 2 s1 ++
                natToBytesBE 2 s2 ++ natToBytesBE 2 s3 ++ natToBytesBE 2 s4 ++
                natToBytesBE 2 s5 ++ natToBytesBE 2 s6 ++ natToBytesBE 2 s7)⟩
              scope
          | .error e => .error e
        | .error e => .error e
      | .error e => .error e
    | .error e => .error e

/-- The LEB128 byte sequence the varint writers emit for a value: groups of
7 bits, least significant first, continuation bit `0x80` on all but the
last. -/
def lebBytes (x : Nat) : List Nat :=
  if x < 0x80 then [x]
  else ((x % 256) ||| 0x80) :: lebBytes (x >>> 7)
termination_by x
decreasing_by
  simp only [Nat.shiftRight_eq_div_pow]
  exact Nat.div_lt_self (by omega) (by norm_num)

/-- A read operation that leaves the reader untouched whenever it returns
an error value. -/
def errLeaves (rd : ByteReader → ReadResult α) : Prop :=
  ∀ r e r', rd r = .err e r' → r' = r

/-- A read operation that, on success, only ever drops consumed bytes from
the front of the buffer (so the position moves forward by exactly the
consumed count and stays within the buffer). -/
def advClean (rd : ByteReader → ReadResult α) : Prop :=
  ∀ r v r', rd r = .ok v r' → ∃ k, k ≤ r.buf.length ∧ r'.buf = r.buf.drop k

/-- A read operation whose error states are still forward positions of the
input (never a rewind, never out of bounds). -/
def errForward (rd : ByteReader → ReadResult α) : Prop :=
  ∀ r e r', rd r = .err e r' → ∃ k, k ≤ r.buf.length ∧ r'.buf = r.buf.drop k

/-- `decode(encode(v)) = v` for a `Writer`/`Reader` pair: encoding appends
a byte string determined by `v` to any prior sink contents, and decoding
those bytes (with anything following them) returns exactly `v` and
consumes exactly them. -/
def RoundTrips (wr : α → ByteWriter → Except IOError ByteWriter)
    (rd : ByteReader → ReadResult α) (P : α → Prop) : Prop :=
  ∀ (v : α) (pre : List Nat), P v →
    ∃ out : List Nat,
      wr v ⟨pre⟩ = .ok ⟨pre ++ out⟩ ∧
      ∀ rest : List Nat, rd ⟨out ++ rest⟩ = .ok v ⟨rest⟩

/-!
Code generated by the derive macro for structs (`src/codegen/src/io/structs.rs`).
-/

/-- The struct of the conditional-field example,
`struct ABC helper a: u8, satisfy(a == 10) b: Option u8, c: u8`
(binary-util/tests/binary_io_struct.rs). -/
structure ABC where
  a : Nat
  b : Option Nat
  c : Nat
deriving DecidableEq

/-- The generated `Writer::write` for `ABC` (structs.rs:111-113 for the
plain fields, structs.rs:311-319 for the satisfy field): field `a`
unconditionally; field `b` only when `self.a == 10`, failing with
`InvalidData` when the predicate holds but `b` is `None`; field `c`
unconditionally. -/
def ABC.write (v : ABC) (w : BinaryUtil.ByteWriter) :
    Except BinaryUtil.IOError BinaryUtil.ByteWriter :=
  match w.write_u8 v.a with
  | .ok w1 =>
    let afterB : Except BinaryUtil.IOError BinaryUtil.ByteWriter :=
      if v.a == 10 then
        match v.b with
        | some x => w1.write_u8 x
        | none =>
          .error ⟨.invalidData,
            "Condition for field self.b was satisfied, but the field was not present!"⟩
      else .ok w1
    match afterB with
    | .ok w2 => w2.write_u8 v.c
    | .error e => .error e
  | .error e => .error e

/-- The generated `Reader::read` for `ABC` (structs.rs:114-116 for the
plain fields, structs.rs:320-326 for the satisfy field): `b` is decoded
exactly when the predicate over the already-bound `a` is true, else bound
to `None` with no bytes consumed. -/
def ABC.read (r : BinaryUtil.ByteReader) : BinaryUtil.ReadResult ABC :=
  match r.read_u8 with
  | .ok a r1 =>
    let afterB : BinaryUtil.ReadResult (Option Nat) :=
      if a == 10 then
        match r1.read_u8 with
        | .ok x r2 => .ok (some x) r2
        | .err e r2 => .err e r2
        | .panicked => .panicked
      else .ok none r1
    match afterB with
    | .ok b r2 =>
      match r2.read_u8 with
      | .ok c r3 => .ok ⟨a, b, c⟩ r3
      | .err e r3 => .err e r3
      | .panicked => .panicked
    | .err e r2 => .err e r2
    | .panicked => .panicked
  | .err e r1 => .err e r1
  | .panicked => .panicked

/-- Outcome of a generated write fragment: success, error return, or a
Rust panic (from `Option::unwrap`). -/
inductive WriteResult where
  | ok (w : ByteWriter)
  | err (e : IOError)
  | panicked
deriving DecidableEq

/-- Write fragment of a field with `require(sibling)` (structs.rs:245-251):
`if self.sibling.is_some()` write `self.field.unwrap()` (which aborts when
the field itself is `None`), else fail with `InvalidData`. -/
def require_write (sibling : Option β) (field : Option α)
    (wr : α → ByteWriter → Except IOError ByteWriter) (w : ByteWriter) :
    WriteResult :=
  match sibling with
  | some _ =>
    match field with
    | some v =>
      match wr v ⟨[]⟩ with
      | .ok tmp => .ok ⟨w.buf ++ tmp.buf⟩
      | .error e => .err e
    | none => .panicked
  | none =>
    .err ⟨.invalidData, "Cannot write a field that is required but not present!"⟩

/-- Read fragment of a field with `require(sibling)` (structs.rs:252-257):
error when the already-decoded sibling is `None`, otherwise
`<T>::read(reader).ok()` — `Some` on success, `None` on failure with the
inner error discarded. -/
def require_read (siblingDecoded : Option β)
    (rd : ByteReader → ReadResult α) (r : ByteReader) : ReadResult (Option α) :=
  if siblingDecoded.isNone then
    .err ⟨.invalidData, "Cannot read a field that is required but not present!"⟩ r
  else
    match rd r with
    | .ok v r' => .ok (some v) r'
    | .err _ r' => .ok none r'
    | .panicked => .panicked

/-- Write fragment of a field with `if_present(sibling)` (structs.rs:276-280):
like `require` but emits nothing (and succeeds) when the sibling is absent. -/
def if_present_write (sibling : Option β) (field : Option α)
    (wr : α → ByteWriter → Except IOError ByteWriter) (w : ByteWriter) :
    WriteResult :=
  match sibling with
  | some _ =>
    match field with
    | some v =>
      match wr v ⟨[]⟩ with
      | .ok tmp => .ok ⟨w.buf ++ tmp.buf⟩
      | .error e => .err e
    | none => .panicked
  | none => .ok w

/-- Read fragment of a field with `if_present(sibling)` (structs.rs:281-283):
`<T>::read(reader).ok()` unconditionally. -/
def if_present_read (rd : ByteReader → ReadResult α) (r : ByteReader) :
    ReadResult (Option α) :=
  match rd r with
  | .ok v r' => .ok (some v) r'
  | .err _ r' => .ok none r'
  | .panicked => .panicked

/-!
The enum half of the derive macro (`src/binary-util-derive/src/io/enums.rs`).
-/

/-- Per-field attributes after `parse_attribute`. -/
inductive IoAttr where
  | satisfy
  | require
  | ifPresent
  | skip
  | unknown
  | doc
deriving DecidableEq

/-- Shape of one enum variant as the macro sees it. -/
inductive VariantFields where
  | unit
  | unnamed (arity : Nat)
  | named
deriving DecidableEq

structure VariantAst where
  discriminant : Option Int
  attrs : List IoAttr
  fields : VariantFields
deriving DecidableEq

/-- The enum item as the macro sees it: the optional `#[repr(...)]`
argument and the variant list. -/
structure EnumAst where
  repr : Option String
  variants : List VariantAst
deriving DecidableEq

/-- The repr names accepted by the validation regex
`(u|i)(size|8|16|32|32|64|128)` (enums.rs:15). -/
def validReprs : List String :=
  ["u8", "u16", "u32", "u64", "u128", "usize",
   "i8", "i16", "i32", "i64", "i128", "isize"]

/-- The `curr_discrim` resolution of the variant loop (enums.rs:138-175):
an explicit literal sets it, otherwise previous + 1, or 0 for the first
variant. -/
def resolve_discriminants : Option Int → List (Option Int) → List Int
  | _, [] => []
  | curr, d :: rest =>
    let v : Int :=
      match d with
      | some x => x
      | none =>
        match curr with
        | some c => c + 1
        | none => 0
    v :: resolve_discriminants (some v) rest

/-- Attributes surviving the filter at enums.rs:178-189. -/
def keptAttrs (attrs : List IoAttr) : List IoAttr :=
  attrs.filter (fun a => a != .unknown && a != .doc)

/-- Whether one variant passes the checks of the loop body
(enums.rs:191-222): `satisfy`/`if_present`/`require` attributes and named
fields are rejected. -/
def variantOk (v : VariantAst) : Bool :=
  (match (keptAttrs v.attrs).head? with
   | some .satisfy => false
   | some .require => false
   | some .ifPresent => false
   | _ => true) &&
  (match v.fields with
   | .named => false
   | _ => true)

/-- Payload arity of a variant in the generated code (unit variants write
only the discriminant; unnamed variants additionally write each field). -/
def variantArity (v : VariantAst) : Nat :=
  match v.fields with
  | .unnamed n => n
  | _ => 0

/-- `derive_enum` (enums.rs:91-278) modelled up to its validation and
discriminant resolution: rejects a missing or invalid repr and any variant
failing `variantOk`; otherwise succeeds with the resolved
(discriminant, payload arity) list in declaration order.  There is no
duplicate-discriminant check anywhere in the source loop. -/
def derive_enum (e : EnumAst) : Except String (List (Int × Nat)) :=
  match e.repr with
  | none => .error "Enum must have a repr attribute."
  | some repr =>
    if validReprs.contains repr then
      if e.variants.all variantOk then
        .ok ((resolve_discriminants none (e.variants.map (·.discriminant))).zip
          (e.variants.map variantArity))
      else .error "invalid variant"
    else .error "repr attribute must contain a valid C type"

/-- The generated `Reader::read` match: the arms appear in declaration
order, so a decoded discriminant selects the first variant that resolved
to it (enums.rs:269-276, 342-347). -/
def enum_match_arm (arms : List (Int × Nat)) (d : Int) : Option Nat :=
  arms.findIdx? (fun a => a.1 == d)

/-- The enum of the discriminant-inference example,
`enum MyEnum helper A, B(u8, u8), C(u8, u8, u8)` with `repr(u8)`
(src/tests/binary_io_enum.rs). -/
inductive MyEnum where
  | A
  | B (x y : Nat)
  | C (x y z : Nat)
deriving DecidableEq

/-- The generated `Writer::write` for `MyEnum` (enums.rs:326-347, 349-358):
write the resolved discriminant as the repr type (`u8`), then each
positional payload field in order via its `Writer`. -/
def MyEnum.write (v : MyEnum) (w : ByteWriter) : Except IOError ByteWriter :=
  match v with
  | .A => w.write_u8 0
  | .B x y =>
    match w.write_u8 1 with
    | .ok w1 =>
      match w1.write_u8 x with
      | .ok w2 => w2.write_u8 y
      | .error e => .error e
    | .error e => .error e
  | .C x y z =>
    match w.write_u8 2 with
    | .ok w1 =>
      match w1.write_u8 x with
      | .ok w2 =>
        match w2.write_u8 y with
        | .ok w3 => w3.write_u8 z
        | .error e => .error e
      | .error e => .error e
    | .error e => .error e

/-- An enum whose two unit variants carry the same explicit discriminant:
`#[repr(u8)] enum Dup helper A = 0, B = 0`. -/
def dupEnum : EnumAst :=
  ⟨some "u8", [⟨some 0, [], .unit⟩, ⟨some 0, [], .unit⟩]⟩

/-!
## Bit-level toolkit
-/

theorem and_two_pow_sub_one (x k : Nat) : x &&& (2 ^ k - 1) = x % 2 ^ k := by
  apply Nat.eq_of_testBit_eq
  intro i
  rw [Nat.testBit_and, Nat.testBit_two_pow_sub_one, Nat.testBit_mod_two_pow,
    Bool.and_comm]

theorem and_128_eq_zero {m : Nat} (h : m < 128) : m &&& 128 = 0 := by
  apply Nat.eq_of_testBit_eq
  intro i
  have h7 : (128 : Nat) = 2 ^ 7 := rfl
  rw [Nat.testBit_and, h7, Nat.testBit_two_pow, Nat.zero_testBit]
  by_cases hi : 7 = i
  · subst hi
    rw [Nat.testBit_lt_two_pow h]
    rfl
  · simp [hi]

theorem or_128_and_128 (b : Nat) : (b ||| 128) &&& 128 = 128 := by
  apply Nat.eq_of_testBit_eq
  intro i
  have h7 : (128 : Nat) = 2 ^ 7 := rfl
  rw [h7, Nat.testBit_and, Nat.testBit_or, Nat.testBit_two_pow]
  by_cases hi : 7 = i <;> simp [hi]

theorem or_128_and_127 (b : Nat) : (b ||| 128) &&& 127 = b % 128 := by
  apply Nat.eq_of_testBit_eq
  intro i
  have h7 : (128 : Nat) = 2 ^ 7 := rfl
  have h6 : (127 : Nat) = 2 ^ 7 - 1 := rfl
  rw [h7, h6, Nat.testBit_and, Nat.testBit_or, Nat.testBit_two_pow,
    Nat.testBit_two_pow_sub_one, Nat.testBit_mod_two_pow]
  by_cases hi : i < 7
  · have h9 : ¬ (7 = i) := by omega
    simp [hi, h9]
  · simp [hi]

theorem or_128_mod_256 (x : Nat) : (x % 256) ||| 128 = (x % 128) ||| 128 := by
  apply Nat.eq_of_testBit_eq
  intro i
  have h8 : x % 256 = x % 2 ^ 8 := rfl
  have h7 : x % 128 = x % 2 ^ 7 := rfl
  have h128 : (128 : Nat) = 2 ^ 7 := rfl
  rw [h8, h7, h128, Nat.testBit_or, Nat.testBit_or, Nat.testBit_mod_two_pow,
    Nat.testBit_mod_two_pow, Nat.testBit_two_pow]
  by_cases h1 : i < 7
  · have h2 : i < 8 := by omega
    simp [h1, h2]
  · by_cases h2 : i < 8
    · have h3 : 7 = i := by omega
      simp [h1, h2, h3]
    · simp [h1, h2]

theorem mod_or_shiftRight (n s : Nat) : n % 2 ^ s ||| ((n >>> s) <<< s) = n := by
  apply Nat.eq_of_testBit_eq
  intro i
  rw [Nat.testBit_or, Nat.testBit_mod_two_pow, Nat.testBit_shiftLeft,
    Nat.testBit_shiftRight]
  by_cases hi : i < s
  · have h2 : ¬ (i ≥ s) := by omega
    simp [hi, h2]
  · have h2 : i ≥ s := by omega
    have h3 : s + (i - s) = i := by omega
    simp [hi, h2, h3]

theorem mod_or_group (n s : Nat) :
    n % 2 ^ s ||| (((n >>> s) % 2 ^ 7) <<< s) = n % 2 ^ (s + 7) := by
  apply Nat.eq_of_testBit_eq
  intro i
  rw [Nat.testBit_or, Nat.testBit_mod_two_pow, Nat.testBit_shiftLeft,
    Nat.testBit_mod_two_pow, Nat.testBit_shiftRight, Nat.testBit_mod_two_pow]
  by_cases h1 : i < s
  · have h2 : ¬ (i ≥ s) := by omega
    have h3 : i < s + 7 := by omega
    simp [h1, h2, h3]
  · have h2 : i ≥ s := by omega
    have h3 : s + (i - s) = i := by omega
    by_cases h4 : i < s + 7
    · have h5 : i - s < 7 := by omega
      simp [h1, h2, h3, h4, h5]
    · have h5 : ¬ (i - s < 7) := by omega
      simp [h1, h2, h3, h4, h5]

/-!
## LEB128 writer lemmas
-/

theorem lebBytes_length_le : ∀ (k x : Nat), x < 2 ^ (7 * (k + 1)) →
    (lebBytes x).length ≤ k + 1 := by
  intro k
  induction k with
  | zero =>
    intro x hx
    rw [lebBytes]
    have h : x < 0x80 := by norm_num at hx ⊢; omega
    simp [h]
  | succ k ih =>
    intro x hx
    rw [lebBytes]
    by_cases h : x < 0x80
    · simp [h]
    · have h2 : x >>> 7 < 2 ^ (7 * (k + 1)) := by
        rw [Nat.shiftRight_eq_div_pow]
        apply Nat.div_lt_of_lt_mul
        calc x < 2 ^ (7 * (k + 2)) := hx
        _ = 2 ^ (7 * (k + 1)) * 2 ^ 7 := by ring
        _ = 2 ^ 7 * 2 ^ (7 * (k + 1)) := by ring
      simp only [h, if_false, List.length_cons]
      have := ih (x >>> 7) h2
      omega

theorem write_var_u32_loop_eq (x : Nat) :
    ∀ w : ByteWriter, write_var_u32_loop x w = .ok ⟨w.buf ++ lebBytes x⟩ := by
  induction x using Nat.strong_induction_on with
  | _ x ih =>
    intro w
    rw [write_var_u32_loop, lebBytes]
    by_cases h : x < 0x80
    · have h2 : ¬ x ≥ 0x80 := by omega
      have h3 : x % 256 % 256 = x := by omega
      simp [h2, h, ByteWriter.write_u8, ByteWriter.write_fixed, natToBytesBE, h3]
    · have h2 : x ≥ 0x80 := by omega
      have hlt : x >>> 7 < x := by
        rw [Nat.shiftRight_eq_div_pow]
        exact Nat.div_lt_self (by omega) (by norm_num)
      have h3 : ((x % 256) ||| 128) % 256 = (x % 256) ||| 128 := by
        have : (x % 256) ||| 128 < 256 := by
          have h4 : x % 256 < 2 ^ 8 := by omega
          have h5 : (128 : Nat) < 2 ^ 8 := by norm_num
          exact Nat.or_lt_two_pow h4 h5
        omega
      simp only [h2, ge_iff_le, le_refl, dite_true, dif_pos,
        ByteWriter.write_u8, ByteWriter.write_fixed, natToBytesBE, h3, h,
        if_false, List.nil_append]
      rw [ih (x >>> 7) hlt]
      simp

theorem write_var_u64_loop_eq : ∀ (fuel x : Nat) (w : ByteWriter),
    x < 2 ^ (7 * fuel) → 1 ≤ fuel →
    write_var_u64_loop x w fuel = .ok ⟨w.buf ++ lebBytes x⟩ := by
  intro fuel
  induction fuel with
  | zero => intro x w _ h1; omega
  | succ fuel ih =>
    intro x w hx _
    rw [write_var_u64_loop, lebBytes]
    by_cases h : x < 0x80
    · have h2 : x >>> 7 = 0 := by
        rw [Nat.shiftRight_eq_div_pow]
        omega
      have h3 : x % 256 % 256 = x := by omega
      simp [h2, h, h3, ByteWriter.write_u8, ByteWriter.write_fixed, natToBytesBE]
    · have h2 : ¬ (x >>> 7 = 0) := by
        rw [Nat.shiftRight_eq_div_pow]
        norm_num
        omega
      have h2b : (x >>> 7 == 0) = false := by
        simp [h2]
      have hfuel : 1 ≤ fuel := by
        by_contra hf
        have hf0 : fuel = 0 := by omega
        subst hf0
        norm_num at hx
        omega
      have hx7 : x >>> 7 < 2 ^ (7 * fuel) := by
        rw [Nat.shiftRight_eq_div_pow]
        apply Nat.div_lt_of_lt_mul
        calc x < 2 ^ (7 * (fuel + 1)) := hx
        _ = 2 ^ 7 * 2 ^ (7 * fuel) := by ring
      have h3 : (x &&& 0x7F) ||| 0x80 = (x % 256) ||| 128 := by
        rw [show (0x7F : Nat) = 2 ^ 7 - 1 from rfl, and_two_pow_sub_one]
        exact (or_128_mod_256 x).symm
      have h4 : ((x % 256) ||| 128) % 256 = (x % 256) ||| 128 := by
        have : (x % 256) ||| 128 < 256 := by
          have h5 : x % 256 < 2 ^ 8 := by omega
          have h6 : (128 : Nat) < 2 ^ 8 := by norm_num
          exact Nat.or_lt_two_pow h5 h6
        omega
      simp only [h2b, if_false, h3, ByteWriter.write_u8, ByteWriter.write_fixed,
        natToBytesBE, h4, h, List.nil_append]
      rw [ih (x >>> 7) _ hx7 hfuel]
      simp

/-!
## Varint decoder correctness
-/

theorem lebBytes_ne_nil (x : Nat) : lebBytes x ≠ [] := by
  rw [lebBytes]
  by_cases h : x < 0x80 <;> simp [h]

theorem read_var_loop_ok (W numIters : Nat) (msg : String)
    (hW : 7 * (numIters - 1) < W) :
    ∀ (g k rem n : Nat) (buf rest : List Nat),
      buf.drop k = lebBytes (n >>> (7 * k)) ++ rest →
      (lebBytes (n >>> (7 * k))).length = g →
      n < 2 ^ W →
      g ≤ rem → k + rem ≤ numIters →
      read_var_loop ⟨buf⟩ W msg (List.range' (7 * k) rem 7) (n % 2 ^ (7 * k)) k
        = .ok n ⟨buf.drop (k + g)⟩ := by
  intro g
  induction g with
  | zero =>
    intro k rem n buf rest _ hlen _ _ _
    exact absurd hlen (by simpa using lebBytes_ne_nil (n >>> (7 * k)))
  | succ g ih =>
    intro k rem n buf rest hdrop hlen hn hg hrem
    obtain ⟨rem', hrem'⟩ : ∃ rem', rem = rem' + 1 := ⟨rem - 1, by omega⟩
    subst hrem'
    rw [List.range'_succ]
    set m := n >>> (7 * k) with hm
    have hbuflen : k < buf.length := by
      have h1 := congrArg List.length hdrop
      have h2 : (lebBytes m).length ≠ 0 := by
        intro hc
        exact lebBytes_ne_nil m (List.eq_nil_of_length_eq_zero hc)
      simp only [List.length_drop, List.length_append] at h1
      omega
    rw [lebBytes] at hdrop hlen
    by_cases hsmall : m < 0x80
    · -- final group: continuation bit clear, the loop returns and advances
      simp only [hsmall, if_true, if_pos] at hdrop hlen
      have hg1 : g = 0 := by simpa using hlen
      subst hg1
      have hpeek : (⟨buf⟩ : ByteReader).peek_ahead k = .ok m ⟨buf⟩ := by
        rw [ByteReader.peek_ahead]
        have hge : (⟨buf⟩ : ByteReader).remaining ≥ k := by
          simp only [ByteReader.remaining]
          omega
        have hget : buf[k]? = some m := by
          have h0 := List.getElem?_drop buf k 0
          rw [hdrop] at h0
          simpa using h0.symm
        simp [hge, hget]
      rw [read_var_loop, hpeek]
      have hand : m &&& 0x7F = m := by
        rw [show (0x7F : Nat) = 2 ^ 7 - 1 from rfl, and_two_pow_sub_one]
        exact Nat.mod_eq_of_lt (lt_of_lt_of_le hsmall (by norm_num))
      have hcont : (m &&& 0x80 == 0) = true := by
        rw [show (0x80 : Nat) = 128 from rfl, and_128_eq_zero hsmall]
        rfl
      have hshift : (m <<< (7 * k)) % 2 ^ W = m <<< (7 * k) := by
        apply Nat.mod_eq_of_lt
        calc m <<< (7 * k) = n >>> (7 * k) <<< (7 * k) := by rw [hm]
        _ ≤ n := by
          rw [Nat.shiftLeft_eq, Nat.shiftRight_eq_div_pow]
          exact Nat.div_mul_le_self n (2 ^ (7 * k))
        _ < 2 ^ W := hn
      simp only [hand, hcont, if_true, hshift]
      rw [hm, mod_or_shiftRight]
    · -- continuation group: accumulate 7 bits and loop
      simp only [hsmall, if_false] at hdrop hlen
      have hglen : (lebBytes (m >>> 7)).length = g := by simpa using hlen
      have hg1 : 1 ≤ g := by
        have := lebBytes_ne_nil (m >>> 7)
        have h2 : (lebBytes (m >>> 7)).length ≠ 0 := by
          intro hc
          exact this (List.eq_nil_of_length_eq_zero hc)
        omega
      have hpeek : (⟨buf⟩ : ByteReader).peek_ahead k
          = .ok ((m % 256) ||| 0x80) ⟨buf⟩ := by
        rw [ByteReader.peek_ahead]
        have hge : (⟨buf⟩ : ByteReader).remaining ≥ k := by
          simp only [ByteReader.remaining]
          omega
        have hget : buf[k]? = some ((m % 256) ||| 0x80) := by
          have h0 := List.getElem?_drop buf k 0
          rw [hdrop] at h0
          simpa using h0.symm
        simp [hge, hget]
      rw [read_var_loop, hpeek]
      have hand : ((m % 256) ||| 0x80) &&& 0x7F = m % 128 := by
        rw [show (0x80 : Nat) = 128 from rfl, show (0x7F : Nat) = 127 from rfl,
          or_128_and_127]
        exact Nat.mod_mod_of_dvd m (by norm_num)
      have hcont : (((m % 256) ||| 0x80) &&& 0x80 == 0) = false := by
        rw [show (0x80 : Nat) = 128 from rfl, or_128_and_128]
        rfl
      have hWk : 7 * k + 7 ≤ W := by omega
      have hshift : ((m % 128) <<< (7 * k)) % 2 ^ W = (m % 128) <<< (7 * k) := by
        apply Nat.mod_eq_of_lt
        rw [Nat.shiftLeft_eq]
        have hp : 0 < 2 ^ (7 * k) := Nat.pos_pow_of_pos _ (by norm_num)
        calc (m % 128) * 2 ^ (7 * k) < 128 * 2 ^ (7 * k) :=
              (Nat.mul_lt_mul_right hp).mpr (Nat.mod_lt _ (by norm_num))
        _ = 2 ^ (7 * k + 7) := by rw [Nat.pow_add]; ring
        _ ≤ 2 ^ W := Nat.pow_le_pow_right (by norm_num) hWk
      simp only [hand, hcont, if_false, hshift]
      have hsh : n >>> (7 * (k + 1)) = m >>> 7 := by
        rw [hm, ← Nat.shiftRight_add, Nat.mul_succ]
      have haccum : n % 2 ^ (7 * k) ||| (m % 128) <<< (7 * k)
          = n % 2 ^ (7 * (k + 1)) := by
        rw [hm]
        have h0 := mod_or_group n (7 * k)
        have h128 : n >>> (7 * k) % 128 = n >>> (7 * k) % 2 ^ 7 := rfl
        rw [h128, h0, show 7 * k + 7 = 7 * (k + 1) from by ring]
      rw [haccum]
      have hnext : buf.drop (k + 1) = lebBytes (n >>> (7 * (k + 1))) ++ rest := by
        rw [hsh, ← List.drop_drop, hdrop]
        simp
      have h7k : 7 * k + 7 = 7 * (k + 1) := by ring
      rw [h7k]
      have hlen2 : (lebBytes (n >>> (7 * (k + 1)))).length = g := by
        rw [hsh]
        exact hglen
      have hfin := ih (k + 1) rem' n buf rest hnext hlen2 hn (by omega) (by omega)
      rw [show k + 1 + g = k + (g + 1) from by ring] at hfin
      exact hfin

theorem shifts32_eq : shifts32 = List.range' 0 5 7 := by decide

theorem shifts64_eq : shifts64 = List.range' 0 10 7 := by decide

theorem read_var_u32_lebBytes (n : Nat) (hn : n < 2 ^ 32) (rest : List Nat) :
    ByteReader.read_var_u32 ⟨lebBytes n ++ rest⟩ = .ok n ⟨rest⟩ := by
  have hlen : (lebBytes n).length ≤ 5 :=
    lebBytes_length_le 4 n (lt_of_lt_of_le hn (by norm_num))
  have h := read_var_loop_ok 32 5 "Varint overflow's 32-bit integer" (by norm_num)
    (lebBytes n).length 0 5 n (lebBytes n ++ rest) rest
    (by simp) (by simp) hn hlen (by omega)
  rw [ByteReader.read_var_u32, shifts32_eq]
  simpa [Nat.mod_one, List.drop_left] using h

theorem read_var_u64_lebBytes (n : Nat) (hn : n < 2 ^ 64) (rest : List Nat) :
    ByteReader.read_var_u64 ⟨lebBytes n ++ rest⟩ = .ok n ⟨rest⟩ := by
  have hlen : (lebBytes n).length ≤ 10 :=
    lebBytes_length_le 9 n (lt_of_lt_of_le hn (by norm_num))
  have h := read_var_loop_ok 64 10 "Varint overflow's 64-bit integer" (by norm_num)
    (lebBytes n).length 0 10 n (lebBytes n ++ rest) rest
    (by simp) (by simp) hn hlen (by omega)
  rw [ByteReader.read_var_u64, shifts64_eq]
  simpa [Nat.mod_one, List.drop_left] using h

theorem write_var_u32_eq (w : ByteWriter) (num : Nat) :
    w.write_var_u32 num = .ok ⟨w.buf ++ lebBytes num⟩ :=
  write_var_u32_loop_eq num w

theorem write_var_u64_eq (w : ByteWriter) (num : Nat) (h : num < 2 ^ 64) :
    w.write_var_u64 num = .ok ⟨w.buf ++ lebBytes num⟩ := by
  rw [ByteWriter.write_var_u64,
    show (2 : Nat) ^ 64 - 1 = 2 ^ 64 - 1 from rfl, and_two_pow_sub_one,
    Nat.mod_eq_of_lt h]
  exact write_var_u64_loop_eq 10 num w (lt_of_lt_of_le h (by norm_num)) (by norm_num)

/-!
## Zigzag correctness
-/

theorem xor_two_pow_sub_one : ∀ (w x : Nat), x < 2 ^ w →
    x ^^^ (2 ^ w - 1) = 2 ^ w - 1 - x := by
  intro w
  induction w with
  | zero =>
    intro x hx
    have hx0 : x = 0 := by omega
    subst hx0
    rfl
  | succ w ih =>
    intro x hx
    have hp : (0 : Nat) < 2 ^ w := Nat.pos_pow_of_pos _ (by norm_num)
    have h2 : (2 : Nat) ^ (w + 1) = 2 ^ w * 2 := Nat.pow_succ 2 w
    have hb : (2 : Nat) ^ (w + 1) - 1 = Nat.bit true (2 ^ w - 1) := by
      simp only [Nat.bit, cond_true]
      omega
    have hdiv : x.div2 < 2 ^ w := by
      rw [Nat.div2_val]
      omega
    conv_lhs => rw [← Nat.bit_decomp x, hb]
    rw [Nat.xor_bit, ih x.div2 hdiv]
    have hx2 := Nat.bit_decomp x
    cases hbod : x.bodd
    · rw [hbod] at hx2
      simp only [Nat.bit, cond_false] at hx2
      rw [show bne false true = true from rfl]
      simp only [Nat.bit, cond_true]
      omega
    · rw [hbod] at hx2
      simp only [Nat.bit, cond_true] at hx2
      rw [show bne true true = false from rfl]
      simp only [Nat.bit, cond_false]
      omega

theorem toUnsigned_lt (w : Nat) (z : Int) : toUnsigned w z < 2 ^ w := by
  rw [toUnsigned]
  have hp : (0 : Int) < ((2 ^ w : Nat) : Int) := by positivity
  have h1 := Int.emod_nonneg z (ne_of_gt hp)
  have h2 := Int.emod_lt_of_pos z hp
  omega

theorem zigzag_encode_lt (w : Nat) (z : Int) : zigzag_encode w z < 2 ^ w := by
  rw [zigzag_encode]
  have hp : (0 : Nat) < 2 ^ w := Nat.pos_pow_of_pos _ (by norm_num)
  by_cases h : z < 0
  · simp only [h, if_true]
    have hm : (toUnsigned w z <<< 1) % 2 ^ w < 2 ^ w := Nat.mod_lt _ hp
    rw [xor_two_pow_sub_one w _ hm]
    omega
  · simp only [h, if_false]
    exact Nat.mod_lt _ hp

theorem two_pow_split (w : Nat) (hw : 1 ≤ w) : 2 ^ w = 2 * 2 ^ (w - 1) := by
  conv_lhs => rw [show w = (w - 1) + 1 from by omega]
  rw [Nat.pow_succ]
  ring

theorem zigzag_encode_neg (w : Nat) (hw : 1 ≤ w) (z : Int)
    (h1 : -((2 ^ (w - 1) : Nat) : Int) ≤ z) (hz : z < 0) :
    zigzag_encode w z = 2 * (-z).toNat - 1 := by
  have hpow := two_pow_split w hw
  have hppos : (0 : Nat) < 2 ^ (w - 1) := Nat.pos_pow_of_pos _ (by norm_num)
  have hqz : ((2 ^ w : Nat) : Int) = 2 * ((2 ^ (w - 1) : Nat) : Int) := by
    exact_mod_cast hpow
  set zn : Nat := (-z).toNat with hzn
  have hznz : (zn : Int) = -z := Int.toNat_of_nonneg (by omega)
  have hzn1 : 1 ≤ zn := by omega
  have hzn2 : zn ≤ 2 ^ (w - 1) := by omega
  rw [zigzag_encode, if_pos hz, toUnsigned]
  have hmod0 : (z + ((2 ^ w : Nat) : Int) * 1) % ((2 ^ w : Nat) : Int)
      = z % ((2 ^ w : Nat) : Int) :=
    Int.add_mul_emod_self_left z ((2 ^ w : Nat) : Int) 1
  rw [mul_one] at hmod0
  have hmodint : z % ((2 ^ w : Nat) : Int) = z + ((2 ^ w : Nat) : Int) := by
    have h3 : (0 : Int) ≤ z + ((2 ^ w : Nat) : Int) := by omega
    have h4 : z + ((2 ^ w : Nat) : Int) < ((2 ^ w : Nat) : Int) := by omega
    rw [← hmod0]
    exact Int.emod_eq_of_lt h3 h4
  rw [hmodint]
  have hA : (z + ((2 ^ w : Nat) : Int)).toNat = 2 ^ w - zn := by omega
  rw [hA]
  have hshl : (2 ^ w - zn) <<< 1 = (2 ^ w - zn) * 2 := by
    rw [Nat.shiftLeft_eq, Nat.pow_one]
  have hmodn : ((2 ^ w - zn) * 2) % 2 ^ w = 2 ^ w - 2 * zn := by
    have hle : 2 ^ w ≤ (2 ^ w - zn) * 2 := by omega
    have hlt : (2 ^ w - zn) * 2 - 2 ^ w < 2 ^ w := by omega
    rw [Nat.mod_eq_sub_mod hle, Nat.mod_eq_of_lt hlt]
    omega
  rw [hshl, hmodn, xor_two_pow_sub_one w _ (by omega)]
  omega

theorem zigzag_encode_nonneg (w : Nat) (hw : 1 ≤ w) (z : Int)
    (h2 : z < ((2 ^ (w - 1) : Nat) : Int)) (hz : 0 ≤ z) :
    zigzag_encode w z = 2 * z.toNat := by
  have hpow := two_pow_split w hw
  have hqz : ((2 ^ w : Nat) : Int) = 2 * ((2 ^ (w - 1) : Nat) : Int) := by
    exact_mod_cast hpow
  have hznat : (z.toNat : Int) = z := Int.toNat_of_nonneg hz
  have hzlt : z.toNat < 2 ^ (w - 1) := by omega
  rw [zigzag_encode, if_neg (by omega), toUnsigned]
  rw [Int.emod_eq_of_lt hz (by omega)]
  rw [Nat.shiftLeft_eq, Nat.pow_one]
  rw [Nat.mod_eq_of_lt (by omega)]
  omega

theorem zigzag_decode_odd (w : Nat) (hw : 1 ≤ w) (zn : Nat)
    (hzn1 : 1 ≤ zn) (hzn2 : zn ≤ 2 ^ (w - 1)) :
    zigzag_decode w (2 * zn - 1) = -(zn : Int) := by
  have hpow := two_pow_split w hw
  have hppos : (0 : Nat) < 2 ^ (w - 1) := Nat.pos_pow_of_pos _ (by norm_num)
  rw [zigzag_decode]
  have hand : (2 * zn - 1) &&& 1 = (2 * zn - 1) % 2 :=
    Nat.and_one_is_mod (2 * zn - 1)
  have hodd : (2 * zn - 1) % 2 = 1 := by omega
  have hcond : ((2 * zn - 1) &&& 1 == 1) = true := by
    rw [hand, hodd]
    rfl
  rw [if_pos hcond]
  have hshr : (2 * zn - 1) >>> 1 = zn - 1 := by
    rw [Nat.shiftRight_eq_div_pow, Nat.pow_one]
    omega
  rw [hshr, xor_two_pow_sub_one w _ (by omega), toSigned]
  rw [if_neg (by omega)]
  have hcast : ((2 : Int) ^ w) = ((2 ^ w : Nat) : Int) := by push_cast; ring
  rw [hcast]
  omega

theorem zigzag_decode_even (w : Nat) (hw : 1 ≤ w) (a : Nat)
    (ha : a < 2 ^ (w - 1)) :
    zigzag_decode w (2 * a) = (a : Int) := by
  have hpow := two_pow_split w hw
  rw [zigzag_decode]
  have hand : (2 * a) &&& 1 = (2 * a) % 2 :=
    Nat.and_one_is_mod (2 * a)
  have heven : (2 * a) % 2 = 0 := by omega
  have hcond : ¬ (((2 * a) &&& 1 == 1) = true) := by
    rw [hand, heven]
    simp
  rw [if_neg hcond, Nat.xor_zero]
  have hshr : (2 * a) >>> 1 = a := by
    rw [Nat.shiftRight_eq_div_pow, Nat.pow_one]
    omega
  rw [hshr, toSigned, if_pos ha]

theorem zigzag_decode_encode (w : Nat) (hw : 1 ≤ w) (z : Int)
    (h1 : -((2 ^ (w - 1) : Nat) : Int) ≤ z) (h2 : z < ((2 ^ (w - 1) : Nat) : Int)) :
    zigzag_decode w (zigzag_encode w z) = z := by
  by_cases hz : z < 0
  · rw [zigzag_encode_neg w hw z h1 hz]
    have hznz : ((-z).toNat : Int) = -z := Int.toNat_of_nonneg (by omega)
    rw [zigzag_decode_odd w hw (-z).toNat (by omega) (by omega)]
    omega
  · rw [zigzag_encode_nonneg w hw z h2 (by omega)]
    have hznat : (z.toNat : Int) = z := Int.toNat_of_nonneg (by omega)
    rw [zigzag_decode_even w hw z.toNat (by omega)]
    omega

/-!
## Fixed-width codecs
-/

theorem natToBytesBE_length (size num : Nat) : (natToBytesBE size num).length = size := by
  induction size generalizing num with
  | zero => rfl
  | succ s ih =>
    rw [natToBytesBE]
    simp [ih]

theorem bytesToNatBE_append_one (l : List Nat) (b : Nat) :
    bytesToNatBE (l ++ [b]) = bytesToNatBE l * 256 + b := by
  rw [bytesToNatBE, bytesToNatBE, List.foldl_append]
  rfl

theorem bytesToNat_natToBytesBE (size num : Nat) :
    bytesToNatBE (natToBytesBE size num) = num % 2 ^ (8 * size) := by
  induction size generalizing num with
  | zero =>
    simp [natToBytesBE, bytesToNatBE, Nat.mod_one]
  | succ s ih =>
    rw [natToBytesBE, bytesToNatBE_append_one, ih]
    rw [Nat.shiftRight_eq_div_pow]
    have h2 : (2 : Nat) ^ (8 * (s + 1)) = 256 * 2 ^ (8 * s) := by
      rw [show 8 * (s + 1) = 8 + 8 * s from by ring, Nat.pow_add]
    rw [h2, Nat.mod_mul]
    have h3 : (2 : Nat) ^ 8 = 256 := by norm_num
    rw [h3]
    ring

theorem read_fixed_append (size n : Nat) (h : n < 2 ^ (8 * size)) (rest : List Nat) :
    ByteReader.read_fixed ⟨natToBytesBE size n ++ rest⟩ size = .ok n ⟨rest⟩ := by
  rw [ByteReader.read_fixed]
  have hlen : (natToBytesBE size n).length = size := natToBytesBE_length size n
  have hge : (⟨natToBytesBE size n ++ rest⟩ : ByteReader).remaining ≥ size := by
    simp [ByteReader.remaining, hlen]
  rw [if_pos hge]
  have htake := List.take_left (natToBytesBE size n) rest
  have hdrop := List.drop_left (natToBytesBE size n) rest
  rw [hlen] at htake hdrop
  rw [htake, hdrop, bytesToNat_natToBytesBE, Nat.mod_eq_of_lt h]

theorem read_fixed_le_append (size n : Nat) (h : n < 2 ^ (8 * size)) (rest : List Nat) :
    ByteReader.read_fixed_le ⟨natToBytesLE size n ++ rest⟩ size = .ok n ⟨rest⟩ := by
  rw [ByteReader.read_fixed_le, natToBytesLE]
  have hlen : (natToBytesBE size n).reverse.length = size := by
    rw [List.length_reverse]
    exact natToBytesBE_length size n
  have hge : (⟨(natToBytesBE size n).reverse ++ rest⟩ : ByteReader).remaining ≥ size := by
    simp [ByteReader.remaining, hlen]
  rw [if_pos hge]
  have htake := List.take_left (natToBytesBE size n).reverse rest
  have hdrop := List.drop_left (natToBytesBE size n).reverse rest
  rw [hlen] at htake hdrop
  rw [htake, hdrop, List.reverse_reverse, bytesToNat_natToBytesBE, Nat.mod_eq_of_lt h]

theorem toSigned_toUnsigned (w : Nat) (hw : 1 ≤ w) (z : Int)
    (h1 : -((2 ^ (w - 1) : Nat) : Int) ≤ z) (h2 : z < ((2 ^ (w - 1) : Nat) : Int)) :
    toSigned w (toUnsigned w z) = z := by
  have hpow := two_pow_split w hw
  have hqz : ((2 ^ w : Nat) : Int) = 2 * ((2 ^ (w - 1) : Nat) : Int) := by
    exact_mod_cast hpow
  have hcast : ((2 : Int) ^ w) = ((2 ^ w : Nat) : Int) := by push_cast; ring
  by_cases hz : z < 0
  · have hmod0 : (z + ((2 ^ w : Nat) : Int) * 1) % ((2 ^ w : Nat) : Int)
        = z % ((2 ^ w : Nat) : Int) :=
      Int.add_mul_emod_self_left z ((2 ^ w : Nat) : Int) 1
    rw [mul_one] at hmod0
    have hmodint : z % ((2 ^ w : Nat) : Int) = z + ((2 ^ w : Nat) : Int) := by
      have h3 : (0 : Int) ≤ z + ((2 ^ w : Nat) : Int) := by omega
      have h4 : z + ((2 ^ w : Nat) : Int) < ((2 ^ w : Nat) : Int) := by omega
      rw [← hmod0]
      exact Int.emod_eq_of_lt h3 h4
    rw [toUnsigned, hmodint, toSigned]
    have hA : ((z + ((2 ^ w : Nat) : Int)).toNat : Int) = z + ((2 ^ w : Nat) : Int) :=
      Int.toNat_of_nonneg (by omega)
    rw [if_neg (by omega), hcast]
    omega
  · rw [toUnsigned, Int.emod_eq_of_lt (by omega) (by omega), toSigned]
    have hA : (z.toNat : Int) = z := Int.toNat_of_nonneg (by omega)
    rw [if_pos (by omega)]
    omega

theorem toUnsigned_mod (W w : Nat) (hle : w ≤ W) (z : Int) :
    toUnsigned W z % 2 ^ w = toUnsigned w z := by
  have hWpos : (0 : Int) < ((2 ^ W : Nat) : Int) := by positivity
  have hwpos : (0 : Int) < ((2 ^ w : Nat) : Int) := by positivity
  have hdvd : ((2 ^ w : Nat) : Int) ∣ ((2 ^ W : Nat) : Int) := by
    exact_mod_cast pow_dvd_pow 2 hle
  have h1 : (z % ((2 ^ W : Nat) : Int)) % ((2 ^ w : Nat) : Int)
      = z % ((2 ^ w : Nat) : Int) := Int.emod_emod_of_dvd z hdvd
  have h2 : (0 : Int) ≤ z % ((2 ^ W : Nat) : Int) := Int.emod_nonneg z (by omega)
  have h3 : (0 : Int) ≤ z % ((2 ^ w : Nat) : Int) := Int.emod_nonneg z (by omega)
  rw [toUnsigned, toUnsigned]
  apply Nat.cast_injective (R := Int)
  push_cast at h1 h2 h3 ⊢
  rw [Int.toNat_of_nonneg h2, Int.toNat_of_nonneg h3]
  exact h1

/-!
## Round trips of the `Reader`/`Writer` implementations
-/

theorem roundtrips_fixed (size : Nat) :
    RoundTrips (fun n w => w.write_fixed size n) (fun r => r.read_fixed size)
      (fun n => n < 2 ^ (8 * size)) := by
  intro v pre hv
  exact ⟨natToBytesBE size v, rfl, fun rest => read_fixed_append size v hv rest⟩

theorem roundtrips_fixed_le (size : Nat) :
    RoundTrips (fun n w => w.write_fixed_le size n) (fun r => r.read_fixed_le size)
      (fun n => n < 2 ^ (8 * size)) := by
  intro v pre hv
  exact ⟨natToBytesLE size v, rfl, fun rest => read_fixed_le_append size v hv rest⟩

theorem roundtrips_signed (size : Nat) (hsz : 1 ≤ size) :
    RoundTrips (fun z w => w.write_fixed size (toUnsigned (8 * size) z))
      (fun r => (r.read_fixed size).map (toSigned (8 * size)))
      (fun z => -((2 ^ (8 * size - 1) : Nat) : Int) ≤ z
        ∧ z < ((2 ^ (8 * size - 1) : Nat) : Int)) := by
  intro v pre hv
  refine ⟨natToBytesBE size (toUnsigned (8 * size) v), rfl, ?_⟩
  intro rest
  have hlt : toUnsigned (8 * size) v < 2 ^ (8 * size) := toUnsigned_lt _ v
  dsimp only
  rw [read_fixed_append size _ hlt rest, ReadResult.map,
    toSigned_toUnsigned (8 * size) (by omega) v hv.1 hv.2]

theorem roundtrips_signed_le (size : Nat) (hsz : 1 ≤ size) :
    RoundTrips (fun z w => w.write_fixed_le size (toUnsigned (8 * size) z))
      (fun r => (r.read_fixed_le size).map (toSigned (8 * size)))
      (fun z => -((2 ^ (8 * size - 1) : Nat) : Int) ≤ z
        ∧ z < ((2 ^ (8 * size - 1) : Nat) : Int)) := by
  intro v pre hv
  refine ⟨natToBytesLE size (toUnsigned (8 * size) v), rfl, ?_⟩
  intro rest
  have hlt : toUnsigned (8 * size) v < 2 ^ (8 * size) := toUnsigned_lt _ v
  dsimp only
  rw [read_fixed_le_append size _ hlt rest, ReadResult.map,
    toSigned_toUnsigned (8 * size) (by omega) v hv.1 hv.2]

/-- `write_i24`/`read_i24` go through a 64-bit two's complement value
truncated to 3 bytes on the wire and sign-extended from 24 bits on read. -/
theorem roundtrips_i24 :
    RoundTrips (fun z w => w.write_i24 z) (fun r => r.read_i24)
      (fun z => -((2 ^ 23 : Nat) : Int) ≤ z ∧ z < ((2 ^ 23 : Nat) : Int)) := by
  intro v pre hv
  refine ⟨natToBytesBE 3 (toUnsigned 64 v), rfl, ?_⟩
  intro rest
  dsimp only
  rw [ByteReader.read_i24]
  have hlen : (natToBytesBE 3 (toUnsigned 64 v)).length = 3 := natToBytesBE_length _ _
  rw [if_pos (by simp [ByteReader.remaining, hlen])]
  rw [ByteReader.read_int, ByteReader.read_fixed]
  rw [if_pos (by simp [ByteReader.remaining, hlen])]
  have htake := List.take_left (natToBytesBE 3 (toUnsigned 64 v)) rest
  have hdrop := List.drop_left (natToBytesBE 3 (toUnsigned 64 v)) rest
  rw [hlen] at htake hdrop
  rw [htake, hdrop, bytesToNat_natToBytesBE, ReadResult.map, toUnsigned_mod 64 24 (by omega)]
  rw [toSigned_toUnsigned 24 (by omega) v hv.1 hv.2]

theorem roundtrips_i24_le :
    RoundTrips (fun z w => w.write_i24_le z) (fun r => r.read_i24_le)
      (fun z => -((2 ^ 23 : Nat) : Int) ≤ z ∧ z < ((2 ^ 23 : Nat) : Int)) := by
  intro v pre hv
  refine ⟨natToBytesLE 3 (toUnsigned 64 v), rfl, ?_⟩
  intro rest
  dsimp only
  rw [ByteReader.read_i24_le]
  have hlen : (natToBytesLE 3 (toUnsigned 64 v)).length = 3 := by
    rw [natToBytesLE, List.length_reverse]
    exact natToBytesBE_length _ _
  rw [if_pos (by simp [ByteReader.remaining, hlen])]
  rw [ByteReader.read_int_le, ByteReader.read_fixed_le]
  rw [if_pos (by simp [ByteReader.remaining, hlen])]
  have htake := List.take_left (natToBytesLE 3 (toUnsigned 64 v)) rest
  have hdrop := List.drop_left (natToBytesLE 3 (toUnsigned 64 v)) rest
  rw [hlen] at htake hdrop
  rw [htake, hdrop, natToBytesLE, List.reverse_reverse, bytesToNat_natToBytesBE,
    ReadResult.map, toUnsigned_mod 64 24 (by omega)]
  rw [toSigned_toUnsigned 24 (by omega) v hv.1 hv.2]

theorem roundtrips_u24 :
    RoundTrips (fun n w => w.write_u24 n) (fun r => r.read_u24)
      (fun n => n < 2 ^ 24) := by
  intro v pre hv
  refine ⟨natToBytesBE 3 v, rfl, ?_⟩
  intro rest
  dsimp only
  rw [ByteReader.read_u24]
  have hlen : (natToBytesBE 3 v).length = 3 := natToBytesBE_length _ _
  rw [if_pos (by simp [ByteReader.remaining, hlen])]
  exact read_fixed_append 3 v hv rest

theorem roundtrips_u24_le :
    RoundTrips (fun n w => w.write_u24_le n) (fun r => r.read_u24_le)
      (fun n => n < 2 ^ 24) := by
  intro v pre hv
  refine ⟨natToBytesLE 3 v, rfl, ?_⟩
  intro rest
  dsimp only
  rw [ByteReader.read_u24_le]
  have hlen : (natToBytesLE 3 v).length = 3 := by
    rw [natToBytesLE, List.length_reverse]
    exact natToBytesBE_length _ _
  rw [if_pos (by simp [ByteReader.remaining, hlen])]
  exact read_fixed_le_append 3 v hv rest

theorem roundtrips_var_u32 :
    RoundTrips (fun n w => w.write_var_u32 n) (fun r => r.read_var_u32)
      (fun n => n < 2 ^ 32) := by
  intro v pre hv
  exact ⟨lebBytes v, write_var_u32_eq ⟨pre⟩ v, fun rest => read_var_u32_lebBytes v hv rest⟩

theorem roundtrips_var_u64 :
    RoundTrips (fun n w => w.write_var_u64 n) (fun r => r.read_var_u64)
      (fun n => n < 2 ^ 64) := by
  intro v pre hv
  exact ⟨lebBytes v, write_var_u64_eq ⟨pre⟩ v hv, fun rest => read_var_u64_lebBytes v hv rest⟩

theorem roundtrips_var_i32 :
    RoundTrips (fun z w => w.write_var_i32 z) (fun r => r.read_var_i32)
      (fun z => -((2 ^ 31 : Nat) : Int) ≤ z ∧ z < ((2 ^ 31 : Nat) : Int)) := by
  intro v pre hv
  refine ⟨lebBytes (zigzag_encode 32 v), write_var_u32_eq ⟨pre⟩ _, ?_⟩
  intro rest
  dsimp only
  rw [ByteReader.read_var_i32,
    read_var_u32_lebBytes _ (zigzag_encode_lt 32 v) rest, ReadResult.map,
    zigzag_decode_encode 32 (by omega) v hv.1 hv.2]

theorem roundtrips_var_i64 :
    RoundTrips (fun z w => w.write_var_i64 z) (fun r => r.read_var_i64)
      (fun z => -((2 ^ 63 : Nat) : Int) ≤ z ∧ z < ((2 ^ 63 : Nat) : Int)) := by
  intro v pre hv
  refine ⟨lebBytes (zigzag_encode 64 v),
    write_var_u64_eq ⟨pre⟩ _ (zigzag_encode_lt 64 v), ?_⟩
  intro rest
  dsimp only
  rw [ByteReader.read_var_i64,
    read_var_u64_lebBytes _ (zigzag_encode_lt 64 v) rest, ReadResult.map,
    zigzag_decode_encode 64 (by omega) v hv.1 hv.2]

theorem roundtrips_bool :
    RoundTrips (fun b w => w.write_bool b) (fun r => r.read_bool)
      (fun _ => True) := by
  intro v pre _
  cases v
  · exact ⟨[0], rfl, fun rest => rfl⟩
  · exact ⟨[1], rfl, fun rest => rfl⟩

theorem roundtrips_char :
    RoundTrips (fun c w => w.write_char c) (fun r => r.read_char)
      (fun c => isUnicodeScalar c = true) := by
  intro v pre hv
  refine ⟨natToBytesBE 4 v, rfl, ?_⟩
  intro rest
  have hlt : v < 2 ^ (8 * 4) := by
    rw [isUnicodeScalar] at hv
    simp only [Bool.or_eq_true, decide_eq_true_eq, Bool.and_eq_true] at hv
    norm_num
    omega
  dsimp only
  rw [ByteReader.read_char, ByteReader.read_u32, read_fixed_append 4 v hlt rest]
  simp [hv]

theorem roundtrips_string :
    RoundTrips (fun s w => w.write_string s) (fun r => r.read_string)
      (fun s => s.length < 2 ^ 32) := by
  intro v pre hv
  refine ⟨lebBytes v.length ++ v, ?_, ?_⟩
  · dsimp only
    rw [ByteWriter.write_string, Nat.mod_eq_of_lt hv, write_var_u32_eq]
    simp [List.append_assoc]
  · intro rest
    dsimp only
    rw [ByteReader.read_string, List.append_assoc,
      read_var_u64_lebBytes v.length (by omega) (v ++ rest)]
    dsimp only
    have hge : (⟨v ++ rest⟩ : ByteReader).remaining ≥ v.length := by
      simp [ByteReader.remaining]
    rw [if_pos hge, List.take_left, List.drop_left]

theorem roundtrips_option {α : Type} (wr : α → ByteWriter → Except IOError ByteWriter)
    (rd : ByteReader → ReadResult α) (P : α → Prop)
    (h : RoundTrips wr rd P) :
    RoundTrips (fun v w => w.write_option v wr) (fun r => r.read_option rd)
      (fun v => ∀ x, v = some x → P x) := by
  intro v pre hv
  match v with
  | none =>
    refine ⟨[0], rfl, fun rest => rfl⟩
  | some x =>
    obtain ⟨out, hw, hr⟩ := h x (pre ++ [1]) (hv x rfl)
    refine ⟨1 :: out, ?_, ?_⟩
    · dsimp only
      rw [ByteWriter.write_option]
      have hb : ByteWriter.write_bool ⟨pre⟩ true = .ok ⟨pre ++ [1]⟩ := rfl
      rw [hb]
      dsimp only
      rw [hw]
      simp
    · intro rest
      dsimp only
      rw [ByteReader.read_option]
      have hb : ByteReader.read_bool ⟨1 :: (out ++ rest)⟩
          = .ok true ⟨out ++ rest⟩ := rfl
      rw [show (1 : Nat) :: out ++ rest = 1 :: (out ++ rest) from rfl, hb]
      dsimp only
      rw [if_pos rfl, hr rest]

theorem write_vec_elems_roundtrip {α : Type}
    (wr : α → ByteWriter → Except IOError ByteWriter)
    (rd : ByteReader → ReadResult α) (P : α → Prop) (h : RoundTrips wr rd P) :
    ∀ (l : List α) (pre : List Nat), (∀ x ∈ l, P x) →
      ∃ out, write_vec_elems wr l ⟨pre⟩ = .ok ⟨pre ++ out⟩ ∧
        ∀ rest, read_vec_elems rd l.length ⟨out ++ rest⟩ = .ok l ⟨rest⟩ := by
  intro l
  induction l with
  | nil =>
    intro pre _
    exact ⟨[], by simp [write_vec_elems], fun rest => rfl⟩
  | cons x xs ih =>
    intro pre hP
    obtain ⟨o1, hw1, hr1⟩ := h x pre (hP x (by simp))
    obtain ⟨o2, hw2, hr2⟩ := ih (pre ++ o1) (fun y hy => hP y (by simp [hy]))
    refine ⟨o1 ++ o2, ?_, ?_⟩
    · rw [write_vec_elems, hw1]
      dsimp only
      rw [hw2]
      simp [List.append_assoc]
    · intro rest
      rw [List.length_cons, read_vec_elems, List.append_assoc, hr1 (o2 ++ rest),
        ReadResult.bind, hr2 rest, ReadResult.map]

theorem roundtrips_vec {α : Type} (wr : α → ByteWriter → Except IOError ByteWriter)
    (rd : ByteReader → ReadResult α) (P : α → Prop)
    (h : RoundTrips wr rd P) :
    RoundTrips (fun l w => w.write_vec l wr) (fun r => r.read_vec rd)
      (fun l => l.length < 2 ^ 32 ∧ ∀ x ∈ l, P x) := by
  intro v pre hv
  obtain ⟨out, hw, hr⟩ := write_vec_elems_roundtrip wr rd P h v (pre ++ lebBytes v.length)
    hv.2
  refine ⟨lebBytes v.length ++ out, ?_, ?_⟩
  · dsimp only
    rw [ByteWriter.write_vec, Nat.mod_eq_of_lt hv.1, write_var_u32_eq]
    dsimp only
    rw [hw]
    simp [List.append_assoc]
  · intro rest
    dsimp only
    rw [ByteReader.read_vec, List.append_assoc,
      read_var_u32_lebBytes v.length hv.1 (out ++ rest), ReadResult.bind, hr rest]

/-- Validity of a `SocketAddrM` value: every component fits its wire field. -/
def socketAddrValid : SocketAddrM → Prop
  | .v4 a b c d port => a < 256 ∧ b < 256 ∧ c < 256 ∧ d < 256 ∧ port < 2 ^ 16
  | .v6 port flow s0 s1 s2 s3 s4 s5 s6 s7 scope =>
    port < 2 ^ 16 ∧ flow < 2 ^ 32 ∧ s0 < 2 ^ 16 ∧ s1 < 2 ^ 16 ∧ s2 < 2 ^ 16 ∧
    s3 < 2 ^ 16 ∧ s4 < 2 ^ 16 ∧ s5 < 2 ^ 16 ∧ s6 < 2 ^ 16 ∧ s7 < 2 ^ 16 ∧
    scope < 2 ^ 32

theorem natToBytesBE_one (a : Nat) (h : a < 256) : natToBytesBE 1 a = [a] := by
  rw [natToBytesBE, natToBytesBE]
  simp
  omega

theorem read_u8_cons (a : Nat) (rest : List Nat) :
    ByteReader.read_u8 ⟨a :: rest⟩ = .ok a ⟨rest⟩ := by
  rw [ByteReader.read_u8, ByteReader.read_fixed,
    if_pos (by simp [ByteReader.remaining])]
  simp [bytesToNatBE]

theorem read_u16_append (n : Nat) (h : n < 2 ^ 16) (rest : List Nat) :
    ByteReader.read_u16 ⟨natToBytesBE 2 n ++ rest⟩ = .ok n ⟨rest⟩ :=
  read_fixed_append 2 n h rest

theorem read_u32_append (n : Nat) (h : n < 2 ^ 32) (rest : List Nat) :
    ByteReader.read_u32 ⟨natToBytesBE 4 n ++ rest⟩ = .ok n ⟨rest⟩ :=
  read_fixed_append 4 n h rest

theorem read_u64_append (n : Nat) (h : n < 2 ^ 64) (rest : List Nat) :
    ByteReader.read_u64 ⟨natToBytesBE 8 n ++ rest⟩ = .ok n ⟨rest⟩ :=
  read_fixed_append 8 n h rest

theorem roundtrips_socket_addr :
    RoundTrips (fun v w => v.write w) (fun r => r.read_socket_addr)
      socketAddrValid := by
  intro v pre hv
  match v with
  | .v4 a b c d port =>
    obtain ⟨ha, hb, hc, hd, hport⟩ := hv
    refine ⟨4 :: a :: b :: c :: d :: natToBytesBE 2 port, ?_, ?_⟩
    · simp [SocketAddrM.write, ByteWriter.write_u8, ByteWriter.write_u16,
        ByteWriter.write_fixed, natToBytesBE, List.append_assoc]
    · intro rest
      have hshape : (4 : Nat) :: a :: b :: c :: d :: natToBytesBE 2 port ++ rest
          = 4 :: (a :: (b :: (c :: (d :: (natToBytesBE 2 port ++ rest))))) := by
        simp
      dsimp only
      rw [hshape, ByteReader.read_socket_addr,
        read_u8_cons, ReadResult.bind, if_pos rfl,
        read_u8_cons, ReadResult.bind,
        read_u8_cons, ReadResult.bind,
        read_u8_cons, ReadResult.bind,
        read_u8_cons, ReadResult.bind,
        read_u16_append port hport rest, ReadResult.bind]
  | .v6 port flow s0 s1 s2 s3 s4 s5 s6 s7 scope =>
    obtain ⟨hport, hflow, h0, h1, h2, h3, h4, h5, h6, h7, hscope⟩ := hv
    refine ⟨6 :: (natToBytesBE 2 0 ++ (natToBytesBE 2 port ++ (natToBytesBE 4 flow ++
      (natToBytesBE 2 s0 ++ (natToBytesBE 2 s1 ++ (natToBytesBE 2 s2 ++
        (natToBytesBE 2 s3 ++ (natToBytesBE 2 s4 ++ (natToBytesBE 2 s5 ++
        (natToBytesBE 2 s6 ++ (natToBytesBE 2 s7 ++ natToBytesBE 4 scope))))))))))),
      ?_, ?_⟩
    · simp [SocketAddrM.write, ByteWriter.write_u8, ByteWriter.write_u16,
        ByteWriter.write_u32, ByteWriter.write_fixed, natToBytesBE,
        List.append_assoc]
    · intro rest
      dsimp only
      rw [List.cons_append, ByteReader.read_socket_addr, read_u8_cons,
        ReadResult.bind, if_neg (by norm_num), if_pos rfl]
      rw [List.append_assoc, read_u16_append 0 (by norm_num), ReadResult.bind]
      rw [List.append_assoc, read_u16_append port hport, ReadResult.bind]
      rw [List.append_assoc, read_u32_append flow hflow, ReadResult.bind]
      rw [List.append_assoc, read_u16_append s0 h0, ReadResult.bind]
      rw [List.append_assoc, read_u16_append s1 h1, ReadResult.bind]
      rw [List.append_assoc, read_u16_append s2 h2, ReadResult.bind]
      rw [List.append_assoc, read_u16_append s3 h3, ReadResult.bind]
      rw [List.append_assoc, read_u16_append s4 h4, ReadResult.bind]
      rw [List.append_assoc, read_u16_append s5 h5, ReadResult.bind]
      rw [List.append_assoc, read_u16_append s6 h6, ReadResult.bind]
      rw [List.append_assoc, read_u16_append s7 h7, ReadResult.bind]
      rw [read_u32_append scope hscope, ReadResult.bind]

/-!
## Cursor discipline
-/

theorem read_fixed_ok_drop (size : Nat) (r : ByteReader) (v : Nat) (r' : ByteReader)
    (h : r.read_fixed size = .ok v r') :
    r'.buf = r.buf.drop size ∧ size ≤ r.buf.length := by
  rw [ByteReader.read_fixed] at h
  by_cases hc : r.remaining ≥ size
  · rw [if_pos hc] at h
    simp only [ReadResult.ok.injEq] at h
    rw [← h.2]
    exact ⟨rfl, hc⟩
  · rw [if_neg hc] at h
    exact absurd h (by simp)

theorem read_fixed_err_stays (size : Nat) (r : ByteReader) (e : IOError)
    (r' : ByteReader) (h : r.read_fixed size = .err e r') : r' = r := by
  rw [ByteReader.read_fixed] at h
  by_cases hc : r.remaining ≥ size
  · rw [if_pos hc] at h
    exact absurd h (by simp)
  · rw [if_neg hc] at h
    simp only [ReadResult.err.injEq] at h
    exact h.2.symm

theorem read_fixed_le_ok_drop (size : Nat) (r : ByteReader) (v : Nat) (r' : ByteReader)
    (h : r.read_fixed_le size = .ok v r') :
    r'.buf = r.buf.drop size ∧ size ≤ r.buf.length := by
  rw [ByteReader.read_fixed_le] at h
  by_cases hc : r.remaining ≥ size
  · rw [if_pos hc] at h
    simp only [ReadResult.ok.injEq] at h
    rw [← h.2]
    exact ⟨rfl, hc⟩
  · rw [if_neg hc] at h
    exact absurd h (by simp)

theorem read_fixed_le_err_stays (size : Nat) (r : ByteReader) (e : IOError)
    (r' : ByteReader) (h : r.read_fixed_le size = .err e r') : r' = r := by
  rw [ByteReader.read_fixed_le] at h
  by_cases hc : r.remaining ≥ size
  · rw [if_pos hc] at h
    exact absurd h (by simp)
  · rw [if_neg hc] at h
    simp only [ReadResult.err.injEq] at h
    exact h.2.symm

theorem read_bool_ok_drop (r : ByteReader) (v : Bool) (r' : ByteReader)
    (h : r.read_bool = .ok v r') :
    r'.buf = r.buf.drop 1 ∧ 1 ≤ r.buf.length := by
  rw [ByteReader.read_bool] at h
  match hb : r.buf with
  | [] =>
    rw [hb] at h
    exact absurd h (by simp)
  | b :: t =>
    rw [hb] at h
    simp only [ReadResult.ok.injEq] at h
    rw [← h.2]
    exact ⟨rfl, by simp⟩

theorem read_bool_err_stays (r : ByteReader) (e : IOError) (r' : ByteReader)
    (h : r.read_bool = .err e r') : r' = r := by
  rw [ByteReader.read_bool] at h
  match hb : r.buf with
  | [] =>
    rw [hb] at h
    simp only [ReadResult.err.injEq] at h
    exact h.2.symm
  | b :: t =>
    rw [hb] at h
    exact absurd h (by simp)

theorem read_var_loop_err_stays (W : Nat) (msg : String) :
    ∀ (sh : List Nat) (num k : Nat) (r : ByteReader) (e : IOError) (r' : ByteReader),
      read_var_loop r W msg sh num k = .err e r' → r' = r := by
  intro sh
  induction sh with
  | nil =>
    intro num k r e r' h
    rw [read_var_loop] at h
    simp only [ReadResult.err.injEq] at h
    exact h.2.symm
  | cons i sh ih =>
    intro num k r e r' h
    rw [read_var_loop] at h
    match hp : r.peek_ahead k with
    | .ok b rp =>
      rw [hp] at h
      dsimp only at h
      by_cases hc : (b &&& 0x80 == 0) = true
      · rw [if_pos hc] at h
        exact absurd h (by simp)
      · rw [if_neg hc] at h
        exact ih _ _ r e r' h
    | .err ep rp =>
      rw [hp] at h
      simp only [ReadResult.err.injEq] at h
      rw [← h.2]
      rw [ByteReader.peek_ahead] at hp
      by_cases hg : r.remaining ≥ k
      · rw [if_pos hg] at hp
        match hgg : r.buf[k]? with
        | some b =>
          rw [hgg] at hp
          exact absurd hp (by simp)
        | none =>
          rw [hgg] at hp
          exact absurd hp (by simp)
      · rw [if_neg hg] at hp
        simp only [ReadResult.err.injEq] at hp
        exact hp.2.symm
    | .panicked =>
      rw [hp] at h
      exact absurd h (by simp)

theorem read_var_loop_ok_drop (W : Nat) (msg : String) :
    ∀ (sh : List Nat) (num k : Nat) (r : ByteReader) (v : Nat) (r' : ByteReader),
      read_var_loop r W msg sh num k = .ok v r' →
      ∃ j, j ≤ r.buf.length ∧ r'.buf = r.buf.drop j := by
  intro sh
  induction sh with
  | nil =>
    intro num k r v r' h
    rw [read_var_loop] at h
    exact absurd h (by simp)
  | cons i sh ih =>
    intro num k r v r' h
    rw [read_var_loop] at h
    match hp : r.peek_ahead k with
    | .ok b rp =>
      rw [hp] at h
      dsimp only at h
      by_cases hc : (b &&& 0x80 == 0) = true
      · rw [if_pos hc] at h
        simp only [ReadResult.ok.injEq] at h
        have hk : k < r.buf.length := by
          rw [ByteReader.peek_ahead] at hp
          by_cases hg : r.remaining ≥ k
          · rw [if_pos hg] at hp
            match hgg : r.buf[k]? with
            | some b0 =>
              exact (List.getElem?_eq_some.mp hgg).1
            | none =>
              rw [hgg] at hp
              exact absurd hp (by simp)
          · rw [if_neg hg] at hp
            exact absurd hp (by simp)
        refine ⟨k + 1, by omega, ?_⟩
        rw [← h.2]
      · rw [if_neg hc] at h
        exact ih _ _ r v r' h
    | .err ep rp =>
      rw [hp] at h
      exact absurd h (by simp)
    | .panicked =>
      rw [hp] at h
      exact absurd h (by simp)

theorem read_var_u32_err_stays (r : ByteReader) (e : IOError) (r' : ByteReader)
    (h : r.read_var_u32 = .err e r') : r' = r :=
  read_var_loop_err_stays 32 _ shifts32 0 0 r e r' h

theorem read_var_u64_err_stays (r : ByteReader) (e : IOError) (r' : ByteReader)
    (h : r.read_var_u64 = .err e r') : r' = r :=
  read_var_loop_err_stays 64 _ shifts64 0 0 r e r' h

theorem read_string_forward (r : ByteReader) :
    (∀ v r', r.read_string = .ok v r' →
      ∃ j, j ≤ r.buf.length ∧ r'.buf = r.buf.drop j) ∧
    (∀ e r', r.read_string = .err e r' →
      ∃ j, j ≤ r.buf.length ∧ r'.buf = r.buf.drop j) := by
  constructor
  · intro v r' h
    rw [ByteReader.read_string] at h
    match hv : r.read_var_u64 with
    | .ok len r1 =>
      rw [hv] at h
      dsimp only at h
      obtain ⟨j, hj, hdrop⟩ := read_var_loop_ok_drop 64 _ shifts64 0 0 r len r1 hv
      by_cases hc : r1.remaining ≥ len
      · rw [if_pos hc] at h
        simp only [ReadResult.ok.injEq] at h
        refine ⟨j + len, ?_, ?_⟩
        · have : r1.buf.length = r.buf.length - j := by rw [hdrop]; simp
          rw [ByteReader.remaining] at hc
          omega
        · rw [← h.2]
          simp only [hdrop, List.drop_drop]
      · rw [if_neg hc] at h
        exact absurd h (by simp)
    | .err ev r1 =>
      rw [hv] at h
      exact absurd h (by simp)
    | .panicked =>
      rw [hv] at h
      exact absurd h (by simp)
  · intro e r' h
    rw [ByteReader.read_string] at h
    match hv : r.read_var_u64 with
    | .ok len r1 =>
      rw [hv] at h
      dsimp only at h
      obtain ⟨j, hj, hdrop⟩ := read_var_loop_ok_drop 64 _ shifts64 0 0 r len r1 hv
      by_cases hc : r1.remaining ≥ len
      · rw [if_pos hc] at h
        exact absurd h (by simp)
      · rw [if_neg hc] at h
        simp only [ReadResult.err.injEq] at h
        exact ⟨j, hj, by rw [← h.2, hdrop]⟩
    | .err ev r1 =>
      rw [hv] at h
      simp only [ReadResult.err.injEq] at h
      have := read_var_u64_err_stays r ev r1 hv
      exact ⟨0, by omega, by rw [← h.2, this, List.drop_zero]⟩
    | .panicked =>
      rw [hv] at h
      exact absurd h (by simp)

theorem read_option_forward {α : Type} (rd : ByteReader → ReadResult α)
    (hok : ∀ r v r', rd r = .ok v r' → ∃ j, j ≤ r.buf.length ∧ r'.buf = r.buf.drop j)
    (herr : ∀ r e r', rd r = .err e r' → ∃ j, j ≤ r.buf.length ∧ r'.buf = r.buf.drop j)
    (r : ByteReader) :
    (∀ v r', r.read_option rd = .ok v r' →
      ∃ j, j ≤ r.buf.length ∧ r'.buf = r.buf.drop j) ∧
    (∀ e r', r.read_option rd = .err e r' →
      ∃ j, j ≤ r.buf.length ∧ r'.buf = r.buf.drop j) := by
  have hstep : ∀ r1 : ByteReader, r.read_bool = .ok true r1 →
      r1.buf = r.buf.drop 1 ∧ 1 ≤ r.buf.length := by
    intro r1 hb
    exact read_bool_ok_drop r true r1 hb
  constructor
  · intro v r' h
    rw [ByteReader.read_option] at h
    match hb : r.read_bool with
    | .ok bv r1 =>
      rw [hb] at h
      dsimp only at h
      by_cases hbv : bv = true
      · subst hbv
        rw [if_pos rfl] at h
        obtain ⟨h1, h2⟩ := read_bool_ok_drop r true r1 hb
        match hrd : rd r1 with
        | .ok x r2 =>
          rw [hrd] at h
          simp only [ReadResult.ok.injEq] at h
          obtain ⟨j, hj, hd⟩ := hok r1 x r2 hrd
          refine ⟨1 + j, ?_, ?_⟩
          · have : r1.buf.length = r.buf.length - 1 := by rw [h1]; simp
            omega
          · rw [← h.2, hd, h1, List.drop_drop]
        | .err ex r2 =>
          rw [hrd] at h
          exact absurd h (by simp)
        | .panicked =>
          rw [hrd] at h
          exact absurd h (by simp)
      · rw [if_neg hbv] at h
        simp only [ReadResult.ok.injEq] at h
        obtain ⟨h1, h2⟩ := read_bool_ok_drop r bv r1 hb
        exact ⟨1, by omega, by rw [← h.2, h1]⟩
    | .err eb r1 =>
      rw [hb] at h
      exact absurd h (by simp)
    | .panicked =>
      rw [hb] at h
      exact absurd h (by simp)
  · intro e r' h
    rw [ByteReader.read_option] at h
    match hb : r.read_bool with
    | .ok bv r1 =>
      rw [hb] at h
      dsimp only at h
      by_cases hbv : bv = true
      · subst hbv
        rw [if_pos rfl] at h
        obtain ⟨h1, h2⟩ := read_bool_ok_drop r true r1 hb
        match hrd : rd r1 with
        | .ok x r2 =>
          rw [hrd] at h
          exact absurd h (by simp)
        | .err ex r2 =>
          rw [hrd] at h
          simp only [ReadResult.err.injEq] at h
          obtain ⟨j, hj, hd⟩ := herr r1 ex r2 hrd
          refine ⟨1 + j, ?_, ?_⟩
          · have : r1.buf.length = r.buf.length - 1 := by rw [h1]; simp
            omega
          · rw [← h.2, hd, h1, List.drop_drop]
        | .panicked =>
          rw [hrd] at h
          exact absurd h (by simp)
      · rw [if_neg hbv] at h
        exact absurd h (by simp)
    | .err eb r1 =>
      rw [hb] at h
      simp only [ReadResult.err.injEq] at h
      have := read_bool_err_stays r eb r1 hb
      exact ⟨0, by omega, by rw [← h.2, this, List.drop_zero]⟩
    | .panicked =>
      rw [hb] at h
      exact absurd h (by simp)

/-!
## Varint overflow on all-continuation input
-/

theorem read_var_loop_allcont (W : Nat) (msg : String) :
    ∀ (sh : List Nat) (num k : Nat) (buf : List Nat),
      (∀ j, j < sh.length → ∃ b, buf[k + j]? = some b ∧ b &&& 0x80 ≠ 0) →
      read_var_loop ⟨buf⟩ W msg sh num k = .err ⟨.other, msg⟩ ⟨buf⟩ := by
  intro sh
  induction sh with
  | nil => intro num k buf _; rfl
  | cons i sh ih =>
    intro num k buf hcont
    obtain ⟨b, hget, hbit⟩ := hcont 0 (by simp)
    rw [show k + 0 = k from rfl] at hget
    have hk : k < buf.length := (List.getElem?_eq_some.mp hget).1
    rw [read_var_loop]
    have hpeek : (⟨buf⟩ : ByteReader).peek_ahead k = .ok b ⟨buf⟩ := by
      rw [ByteReader.peek_ahead,
        if_pos (by simp only [ByteReader.remaining]; omega), hget]
    rw [hpeek]
    dsimp only
    rw [if_neg (by simpa using hbit)]
    exact ih _ (k + 1) buf (fun j hj => by
      have h0 := hcont (j + 1) (by simpa using Nat.succ_lt_succ hj)
      rw [show k + (j + 1) = k + 1 + j from by ring] at h0
      exact h0)

/-!
## Concrete LEB128 evaluations
-/

theorem lebBytes_small {x : Nat} (h : x < 0x80) : lebBytes x = [x] := by
  rw [lebBytes, if_pos h]

theorem lebBytes_cons (x b y : Nat) (h1 : 0x80 ≤ x) (h2 : (x % 256) ||| 0x80 = b)
    (h3 : x >>> 7 = y) : lebBytes x = b :: lebBytes y := by
  rw [lebBytes, if_neg (by omega), h2, h3]

theorem lebBytes_128 : lebBytes 128 = [128, 1] := by
  rw [lebBytes_cons 128 128 1 (by norm_num) (by decide) (by decide),
    lebBytes_small (by norm_num)]

theorem lebBytes_2147483647 : lebBytes 2147483647 = [255, 255, 255, 255, 7] := by
  rw [lebBytes_cons 2147483647 255 16777215 (by norm_num) (by decide) (by decide),
    lebBytes_cons 16777215 255 131071 (by norm_num) (by decide) (by decide),
    lebBytes_cons 131071 255 1023 (by norm_num) (by decide) (by decide),
    lebBytes_cons 1023 255 7 (by norm_num) (by decide) (by decide),
    lebBytes_small (by norm_num)]

theorem lebBytes_4294967293 : lebBytes 4294967293 = [253, 255, 255, 255, 15] := by
  rw [lebBytes_cons 4294967293 253 33554431 (by norm_num) (by decide) (by decide),
    lebBytes_cons 33554431 255 262143 (by norm_num) (by decide) (by decide),
    lebBytes_cons 262143 255 2047 (by norm_num) (by decide) (by decide),
    lebBytes_cons 2047 255 15 (by norm_num) (by decide) (by decide),
    lebBytes_small (by norm_num)]

theorem lebBytes_i64_max : lebBytes 9223372036854775807
    = [255, 255, 255, 255, 255, 255, 255, 255, 127] := by
  rw [lebBytes_cons 9223372036854775807 255 72057594037927935 (by norm_num)
      (by decide) (by decide),
    lebBytes_cons 72057594037927935 255 562949953421311 (by norm_num)
      (by decide) (by decide),
    lebBytes_cons 562949953421311 255 4398046511103 (by norm_num)
      (by decide) (by decide),
    lebBytes_cons 4398046511103 255 34359738367 (by norm_num)
      (by decide) (by decide),
    lebBytes_cons 34359738367 255 268435455 (by norm_num) (by decide) (by decide),
    lebBytes_cons 268435455 255 2097151 (by norm_num) (by decide) (by decide),
    lebBytes_cons 2097151 255 16383 (by norm_num) (by decide) (by decide),
    lebBytes_cons 16383 255 127 (by norm_num) (by decide) (by decide),
    lebBytes_small (by norm_num)]

/-!
## The claims
-/

/-- C1: the spec claims every truncated varint decode fails with
`UnexpectedEof` and leaves the cursor unchanged, never aborting.  The code
contradicts this and its own doc comments ("panic-free", "it will return
an error, and will not consume the bytes that were read"):
`peek_ahead`'s guard is `remaining >= pos` where reading index `pos` needs
`remaining >= pos + 1`, so on every truncated varint (the empty buffer, or
any buffer whose remaining bytes all carry the continuation bit) the read
indexes one past the end of `chunk()` and panics. -/
theorem c1_truncated_varint_panics :
    ByteReader.read_var_u32 ⟨[]⟩ = .panicked ∧
    ByteReader.read_var_u64 ⟨[]⟩ = .panicked ∧
    ByteReader.read_var_u32 ⟨[0x80]⟩ = .panicked ∧
    ByteReader.read_var_i32 ⟨[0x80, 0x80]⟩ = .panicked ∧
    ByteReader.read_var_i64 ⟨[0xFF]⟩ = .panicked := by
  refine ⟨rfl, rfl, ?_, ?_, ?_⟩ <;> decide

/-- C2: `decode(encode(v)) = v` for every supported wire type: the
fixed-width unsigned and signed integers at 8/16/24/32/64/128 bits in the
default big-endian form and the explicit little-endian form (the `BE`
wrapper reuses the default readers and writers, the `LE` wrapper the
`_le` ones), the 32/64-bit floats (modelled by their bit patterns, which
is all the codec moves), bool, char, String, the varint wrapper types
(`varu32`/`vari32`/`varu64`/`vari64`), `Vec<T>` and `Option<T>` for any
element codec that round-trips, and `SocketAddr`. -/
theorem c2_roundtrip :
    RoundTrips (fun n w => w.write_u8 n) (fun r => r.read_u8)
      (fun n => n < 2 ^ 8) ∧
    RoundTrips (fun z w => w.write_i8 z) (fun r => r.read_i8)
      (fun z => -((2 ^ 7 : Nat) : Int) ≤ z ∧ z < ((2 ^ 7 : Nat) : Int)) ∧
    RoundTrips (fun n w => w.write_u16 n) (fun r => r.read_u16)
      (fun n => n < 2 ^ 16) ∧
    RoundTrips (fun n w => w.write_u16_le n) (fun r => r.read_u16_le)
      (fun n => n < 2 ^ 16) ∧
    RoundTrips (fun z w => w.write_i16 z) (fun r => r.read_i16)
      (fun z => -((2 ^ 15 : Nat) : Int) ≤ z ∧ z < ((2 ^ 15 : Nat) : Int)) ∧
    RoundTrips (fun z w => w.write_i16_le z) (fun r => r.read_i16_le)
      (fun z => -((2 ^ 15 : Nat) : Int) ≤ z ∧ z < ((2 ^ 15 : Nat) : Int)) ∧
    RoundTrips (fun n w => w.write_u24 n) (fun r => r.read_u24)
      (fun n => n < 2 ^ 24) ∧
    RoundTrips (fun n w => w.write_u24_le n) (fun r => r.read_u24_le)
      (fun n => n < 2 ^ 24) ∧
    RoundTrips (fun z w => w.write_i24 z) (fun r => r.read_i24)
      (fun z => -((2 ^ 23 : Nat) : Int) ≤ z ∧ z < ((2 ^ 23 : Nat) : Int)) ∧
    RoundTrips (fun z w => w.write_i24_le z) (fun r => r.read_i24_le)
      (fun z => -((2 ^ 23 : Nat) : Int) ≤ z ∧ z < ((2 ^ 23 : Nat) : Int)) ∧
    RoundTrips (fun n w => w.write_u32 n) (fun r => r.read_u32)
      (fun n => n < 2 ^ 32) ∧
    RoundTrips (fun n w => w.write_u32_le n) (fun r => r.read_u32_le)
      (fun n => n < 2 ^ 32) ∧
    RoundTrips (fun z w => w.write_i32 z) (fun r => r.read_i32)
      (fun z => -((2 ^ 31 : Nat) : Int) ≤ z ∧ z < ((2 ^ 31 : Nat) : Int)) ∧
    RoundTrips (fun z w => w.write_i32_le z) (fun r => r.read_i32_le)
      (fun z => -((2 ^ 31 : Nat) : Int) ≤ z ∧ z < ((2 ^ 31 : Nat) : Int)) ∧
    RoundTrips (fun n w => w.write_u64 n) (fun r => r.read_u64)
      (fun n => n < 2 ^ 64) ∧
    RoundTrips (fun n w => w.write_u64_le n) (fun r => r.read_u64_le)
      (fun n => n < 2 ^ 64) ∧
    RoundTrips (fun z w => w.write_i64 z) (fun r => r.read_i64)
      (fun z => -((2 ^ 63 : Nat) : Int) ≤ z ∧ z < ((2 ^ 63 : Nat) : Int)) ∧
    RoundTrips (fun z w => w.write_i64_le z) (fun r => r.read_i64_le)
      (fun z => -((2 ^ 63 : Nat) : Int) ≤ z ∧ z < ((2 ^ 63 : Nat) : Int)) ∧
    RoundTrips (fun n w => w.write_u128 n) (fun r => r.read_u128)
      (fun n => n < 2 ^ 128) ∧
    RoundTrips (fun n w => w.write_u128_le n) (fun r => r.read_u128_le)
      (fun n => n < 2 ^ 128) ∧
    RoundTrips (fun z w => w.write_i128 z) (fun r => r.read_i128)
      (fun z => -((2 ^ 127 : Nat) : Int) ≤ z ∧ z < ((2 ^ 127 : Nat) : Int)) ∧
    RoundTrips (fun z w => w.write_i128_le z) (fun r => r.read_i128_le)
      (fun z => -((2 ^ 127 : Nat) : Int) ≤ z ∧ z < ((2 ^ 127 : Nat) : Int)) ∧
    RoundTrips (fun b w => w.write_f32 b) (fun r => r.read_f32)
      (fun b => b < 2 ^ 32) ∧
    RoundTrips (fun b w => w.write_f32_le b) (fun r => r.read_f32_le)
      (fun b => b < 2 ^ 32) ∧
    RoundTrips (fun b w => w.write_f64 b) (fun r => r.read_f64)
      (fun b => b < 2 ^ 64) ∧
    RoundTrips (fun b w => w.write_f64_le b) (fun r => r.read_f64_le)
      (fun b => b < 2 ^ 64) ∧
    RoundTrips (fun b w => w.write_bool b) (fun r => r.read_bool)
      (fun _ => True) ∧
    RoundTrips (fun c w => w.write_char c) (fun r => r.read_char)
      (fun c => isUnicodeScalar c = true) ∧
    RoundTrips (fun s w => w.write_string s) (fun r => r.read_string)
      (fun s => s.length < 2 ^ 32) ∧
    RoundTrips (fun n w => w.write_var_u32 n) (fun r => r.read_var_u32)
      (fun n => n < 2 ^ 32) ∧
    RoundTrips (fun n w => w.write_var_u64 n) (fun r => r.read_var_u64)
      (fun n => n < 2 ^ 64) ∧
    RoundTrips (fun z w => w.write_var_i32 z) (fun r => r.read_var_i32)
      (fun z => -((2 ^ 31 : Nat) : Int) ≤ z ∧ z < ((2 ^ 31 : Nat) : Int)) ∧
    RoundTrips (fun z w => w.write_var_i64 z) (fun r => r.read_var_i64)
      (fun z => -((2 ^ 63 : Nat) : Int) ≤ z ∧ z < ((2 ^ 63 : Nat) : Int)) ∧
    (∀ (α : Type) (wr : α → ByteWriter → Except IOError ByteWriter)
      (rd : ByteReader → ReadResult α) (P : α → Prop), RoundTrips wr rd P →
      RoundTrips (fun v w => w.write_option v wr) (fun r => r.read_option rd)
        (fun v => ∀ x, v = some x → P x)) ∧
    (∀ (α : Type) (wr : α → ByteWriter → Except IOError ByteWriter)
      (rd : ByteReader → ReadResult α) (P : α → Prop), RoundTrips wr rd P →
      RoundTrips (fun l w => w.write_vec l wr) (fun r => r.read_vec rd)
        (fun l => l.length < 2 ^ 32 ∧ ∀ x ∈ l, P x)) ∧
    RoundTrips (fun v w => SocketAddrM.write v w) (fun r => r.read_socket_addr)
      socketAddrValid :=
  ⟨roundtrips_fixed 1, roundtrips_signed 1 (by norm_num),
    roundtrips_fixed 2, roundtrips_fixed_le 2,
    roundtrips_signed 2 (by norm_num), roundtrips_signed_le 2 (by norm_num),
    roundtrips_u24, roundtrips_u24_le, roundtrips_i24, roundtrips_i24_le,
    roundtrips_fixed 4, roundtrips_fixed_le 4,
    roundtrips_signed 4 (by norm_num), roundtrips_signed_le 4 (by norm_num),
    roundtrips_fixed 8, roundtrips_fixed_le 8,
    roundtrips_signed 8 (by norm_num), roundtrips_signed_le 8 (by norm_num),
    roundtrips_fixed 16, roundtrips_fixed_le 16,
    roundtrips_signed 16 (by norm_num), roundtrips_signed_le 16 (by norm_num),
    roundtrips_fixed 4, roundtrips_fixed_le 4,
    roundtrips_fixed 8, roundtrips_fixed_le 8,
    roundtrips_bool, roundtrips_char, roundtrips_string,
    roundtrips_var_u32, roundtrips_var_u64, roundtrips_var_i32, roundtrips_var_i64,
    fun α wr rd P h => roundtrips_option wr rd P h,
    fun α wr rd P h => roundtrips_vec wr rd P h,
    roundtrips_socket_addr⟩

/-- Witness for C2: the u8 round trip applied at the concrete value 5. -/
theorem c2_roundtrip_witness :
    ByteReader.read_u8 ⟨[5]⟩ = .ok 5 ⟨[]⟩ := by
  obtain ⟨out, hw, hr⟩ := c2_roundtrip.1 5 [] (by norm_num)
  have h0 : (Except.ok (⟨[5]⟩ : ByteWriter) : Except IOError ByteWriter)
      = .ok ⟨[] ++ out⟩ := by
    rw [← hw]
    rfl
  have hout : out = [5] := by
    simp only [Except.ok.injEq, ByteWriter.mk.injEq, List.nil_append] at h0
    exact h0.symm
  have h1 := hr []
  rw [hout] at h1
  simpa using h1

/-- C3: the signed varint codec is the zigzag map: round trip over the
full 32-bit and 64-bit signed ranges (the minimum values included), and
concretely `encode(-1) = [1]` and `encode(-2147483647) =
[253, 255, 255, 255, 15]`. -/
theorem c3_zigzag :
    RoundTrips (fun z w => w.write_var_i32 z) (fun r => r.read_var_i32)
      (fun z => -((2 ^ 31 : Nat) : Int) ≤ z ∧ z < ((2 ^ 31 : Nat) : Int)) ∧
    RoundTrips (fun z w => w.write_var_i64 z) (fun r => r.read_var_i64)
      (fun z => -((2 ^ 63 : Nat) : Int) ≤ z ∧ z < ((2 ^ 63 : Nat) : Int)) ∧
    ByteWriter.write_var_i32 ⟨[]⟩ (-1) = .ok ⟨[1]⟩ ∧
    ByteWriter.write_var_i32 ⟨[]⟩ (-2147483647) = .ok ⟨[253, 255, 255, 255, 15]⟩ := by
  refine ⟨roundtrips_var_i32, roundtrips_var_i64, ?_, ?_⟩
  · rw [ByteWriter.write_var_i32, write_var_u32_eq,
      show zigzag_encode 32 (-1) = 1 from by decide, lebBytes_small (by norm_num)]
    rfl
  · rw [ByteWriter.write_var_i32, write_var_u32_eq,
      show zigzag_encode 32 (-2147483647) = 4294967293 from by decide,
      lebBytes_4294967293]
    rfl

/-- Witness for C3: the 32-bit round trip applied at -1. -/
theorem c3_zigzag_witness :
    ByteReader.read_var_i32 ⟨[1]⟩ = .ok (-1) ⟨[]⟩ := by
  obtain ⟨out, hw, hr⟩ := c3_zigzag.1 (-1) [] ⟨by norm_num, by norm_num⟩
  have heval : ByteWriter.write_var_i32 ⟨[]⟩ (-1) = .ok ⟨[1]⟩ := by
    rw [ByteWriter.write_var_i32, write_var_u32_eq,
      show zigzag_encode 32 (-1) = 1 from by decide, lebBytes_small (by norm_num)]
    rfl
  dsimp only at hw hr
  rw [heval] at hw
  have hout : out = [1] := by
    simp only [Except.ok.injEq, ByteWriter.mk.injEq, List.nil_append] at hw
    exact hw.symm
  have h1 := hr []
  rw [hout] at h1
  simpa using h1

/-- C4: the unsigned varint writer emits at most 5 bytes on the 32-bit
domain and at most 10 on the 64-bit domain; concretely 127 encodes to one
byte, 128 to two, 2147483647 to `[255, 255, 255, 255, 7]` and
9223372036854775807 to the nine bytes `[255 x 8, 127]`; and the decoder
fails with the overflow error (cursor unchanged) when the continuation
bit is still set after the maximum byte count. -/
theorem c4_varint_bounds :
    (∀ n : Nat, n < 2 ^ 32 → ∀ pre : List Nat, ∃ out,
      ByteWriter.write_var_u32 ⟨pre⟩ n = .ok ⟨pre ++ out⟩ ∧ out.length ≤ 5) ∧
    (∀ n : Nat, n < 2 ^ 64 → ∀ pre : List Nat, ∃ out,
      ByteWriter.write_var_u64 ⟨pre⟩ n = .ok ⟨pre ++ out⟩ ∧ out.length ≤ 10) ∧
    ByteWriter.write_var_u32 ⟨[]⟩ 127 = .ok ⟨[127]⟩ ∧
    ByteWriter.write_var_u32 ⟨[]⟩ 128 = .ok ⟨[128, 1]⟩ ∧
    ByteWriter.write_var_u32 ⟨[]⟩ 2147483647 = .ok ⟨[255, 255, 255, 255, 7]⟩ ∧
    ByteWriter.write_var_u64 ⟨[]⟩ 9223372036854775807
      = .ok ⟨[255, 255, 255, 255, 255, 255, 255, 255, 127]⟩ ∧
    (∀ b0 b1 b2 b3 b4 rest, b0 &&& 0x80 ≠ 0 → b1 &&& 0x80 ≠ 0 →
      b2 &&& 0x80 ≠ 0 → b3 &&& 0x80 ≠ 0 → b4 &&& 0x80 ≠ 0 →
      ByteReader.read_var_u32 ⟨[b0, b1, b2, b3, b4] ++ rest⟩
        = .err ⟨.other, "Varint overflow's 32-bit integer"⟩
            ⟨[b0, b1, b2, b3, b4] ++ rest⟩) ∧
    (∀ b0 b1 b2 b3 b4 b5 b6 b7 b8 b9 rest, b0 &&& 0x80 ≠ 0 → b1 &&& 0x80 ≠ 0 →
      b2 &&& 0x80 ≠ 0 → b3 &&& 0x80 ≠ 0 → b4 &&& 0x80 ≠ 0 → b5 &&& 0x80 ≠ 0 →
      b6 &&& 0x80 ≠ 0 → b7 &&& 0x80 ≠ 0 → b8 &&& 0x80 ≠ 0 → b9 &&& 0x80 ≠ 0 →
      ByteReader.read_var_u64 ⟨[b0, b1, b2, b3, b4, b5, b6, b7, b8, b9] ++ rest⟩
        = .err ⟨.other, "Varint overflow's 64-bit integer"⟩
            ⟨[b0, b1, b2, b3, b4, b5, b6, b7, b8, b9] ++ rest⟩) := by
  refine ⟨?_, ?_, ?_, ?_, ?_, ?_, ?_, ?_⟩
  · intro n h pre
    exact ⟨lebBytes n, write_var_u32_eq ⟨pre⟩ n,
      lebBytes_length_le 4 n (lt_of_lt_of_le h (by norm_num))⟩
  · intro n h pre
    exact ⟨lebBytes n, write_var_u64_eq ⟨pre⟩ n h,
      lebBytes_length_le 9 n (lt_of_lt_of_le h (by norm_num))⟩
  · rw [write_var_u32_eq, lebBytes_small (by norm_num)]
    rfl
  · rw [write_var_u32_eq, lebBytes_128]
    rfl
  · rw [write_var_u32_eq, lebBytes_2147483647]
    rfl
  · rw [write_var_u64_eq ⟨[]⟩ _ (by norm_num), lebBytes_i64_max]
    rfl
  · intro b0 b1 b2 b3 b4 rest h0 h1 h2 h3 h4
    have h := read_var_loop_allcont 32 "Varint overflow's 32-bit integer"
      shifts32 0 0 ([b0, b1, b2, b3, b4] ++ rest) ?_
    · exact h
    · intro j hj
      rw [show shifts32.length = 5 from rfl] at hj
      interval_cases j
      · exact ⟨b0, by simp, h0⟩
      · exact ⟨b1, by simp, h1⟩
      · exact ⟨b2, by simp, h2⟩
      · exact ⟨b3, by simp, h3⟩
      · exact ⟨b4, by simp, h4⟩
  · intro b0 b1 b2 b3 b4 b5 b6 b7 b8 b9 rest h0 h1 h2 h3 h4 h5 h6 h7 h8 h9
    have h := read_var_loop_allcont 64 "Varint overflow's 64-bit integer"
      shifts64 0 0 ([b0, b1, b2, b3, b4, b5, b6, b7, b8, b9] ++ rest) ?_
    · exact h
    · intro j hj
      rw [show shifts64.length = 10 from rfl] at hj
      interval_cases j
      · exact ⟨b0, by simp, h0⟩
      · exact ⟨b1, by simp, h1⟩
      · exact ⟨b2, by simp, h2⟩
      · exact ⟨b3, by simp, h3⟩
      · exact ⟨b4, by simp, h4⟩
      · exact ⟨b5, by simp, h5⟩
      · exact ⟨b6, by simp, h6⟩
      · exact ⟨b7, by simp, h7⟩
      · exact ⟨b8, by simp, h8⟩
      · exact ⟨b9, by simp, h9⟩

/-- Witness for C4: the 32-bit length bound applied at 300, and the
overflow error on five continuation bytes. -/
theorem c4_varint_bounds_witness :
    (∃ out, ByteWriter.write_var_u32 ⟨[]⟩ 300 = .ok ⟨[] ++ out⟩ ∧ out.length ≤ 5) ∧
    ByteReader.read_var_u32 ⟨[128, 128, 128, 128, 128]⟩
      = .err ⟨.other, "Varint overflow's 32-bit integer"⟩
          ⟨[128, 128, 128, 128, 128]⟩ := by
  constructor
  · exact c4_varint_bounds.1 300 (by norm_num) []
  · have h := c4_varint_bounds.2.2.2.2.2.2.1 128 128 128 128 128 []
      (by decide) (by decide) (by decide) (by decide) (by decide)
    simpa using h

/-- C5 counterexample: `read_string` on the buffer `[5]` consumes the
one-byte varint length prefix and then fails, returning `UnexpectedEof`
with the cursor moved — contradicting the claim that every read error
leaves the position unchanged. -/
theorem c5_counterexample_read_string :
    ByteReader.read_string ⟨[5]⟩ = .err eofError ⟨[]⟩ ∧
    (⟨[]⟩ : ByteReader) ≠ ⟨[5]⟩ := by
  refine ⟨?_, by decide⟩
  decide

/-- C5 amended: the position always moves forward by exactly the consumed
byte count and stays within the buffer; the single-primitive reads
(fixed-width, bool, and the varint error returns) leave the reader
unchanged on an error value; but the composite reads `read_string` and
`read_option` may consume bytes before failing (they only ever move
forward, never past the end). -/
theorem c5_amended_cursor_discipline :
    (∀ size : Nat, ∀ r : ByteReader, ∀ v r', r.read_fixed size = .ok v r' →
      r'.buf = r.buf.drop size ∧ size ≤ r.buf.length) ∧
    (∀ size : Nat, ∀ r : ByteReader, ∀ e r', r.read_fixed size = .err e r' → r' = r) ∧
    (∀ size : Nat, ∀ r : ByteReader, ∀ v r', r.read_fixed_le size = .ok v r' →
      r'.buf = r.buf.drop size ∧ size ≤ r.buf.length) ∧
    (∀ size : Nat, ∀ r : ByteReader, ∀ e r', r.read_fixed_le size = .err e r' → r' = r) ∧
    (∀ r : ByteReader, ∀ v r', r.read_bool = .ok v r' →
      r'.buf = r.buf.drop 1 ∧ 1 ≤ r.buf.length) ∧
    (∀ r : ByteReader, ∀ e r', r.read_bool = .err e r' → r' = r) ∧
    (∀ r : ByteReader, ∀ e r', r.read_var_u32 = .err e r' → r' = r) ∧
    (∀ r : ByteReader, ∀ e r', r.read_var_u64 = .err e r' → r' = r) ∧
    (∀ r : ByteReader, ∀ v r', r.read_var_u32 = .ok v r' →
      ∃ j, j ≤ r.buf.length ∧ r'.buf = r.buf.drop j) ∧
    (∀ r : ByteReader, ∀ v r', r.read_var_u64 = .ok v r' →
      ∃ j, j ≤ r.buf.length ∧ r'.buf = r.buf.drop j) ∧
    (∀ r : ByteReader,
      (∀ v r', r.read_string = .ok v r' →
        ∃ j, j ≤ r.buf.length ∧ r'.buf = r.buf.drop j) ∧
      (∀ e r', r.read_string = .err e r' →
        ∃ j, j ≤ r.buf.length ∧ r'.buf = r.buf.drop j)) ∧
    (∀ (α : Type) (rd : ByteReader → ReadResult α),
      (∀ r v r', rd r = .ok v r' → ∃ j, j ≤ r.buf.length ∧ r'.buf = r.buf.drop j) →
      (∀ r e r', rd r = .err e r' → ∃ j, j ≤ r.buf.length ∧ r'.buf = r.buf.drop j) →
      ∀ r : ByteReader,
        (∀ v r', r.read_option rd = .ok v r' →
          ∃ j, j ≤ r.buf.length ∧ r'.buf = r.buf.drop j) ∧
        (∀ e r', r.read_option rd = .err e r' →
          ∃ j, j ≤ r.buf.length ∧ r'.buf = r.buf.drop j)) :=
  ⟨fun size r v r' h => read_fixed_ok_drop size r v r' h,
    fun size r e r' h => read_fixed_err_stays size r e r' h,
    fun size r v r' h => read_fixed_le_ok_drop size r v r' h,
    fun size r e r' h => read_fixed_le_err_stays size r e r' h,
    fun r v r' h => read_bool_ok_drop r v r' h,
    fun r e r' h => read_bool_err_stays r e r' h,
    fun r e r' h => read_var_u32_err_stays r e r' h,
    fun r e r' h => read_var_u64_err_stays r e r' h,
    fun r v r' h => read_var_loop_ok_drop 32 _ shifts32 0 0 r v r' h,
    fun r v r' h => read_var_loop_ok_drop 64 _ shifts64 0 0 r v r' h,
    fun r => read_string_forward r,
    fun _ rd hok herr r => read_option_forward rd hok herr r⟩

/-- Witness for C5: the fixed-width conjunct applied to a one-byte read. -/
theorem c5_amended_witness :
    (⟨[]⟩ : ByteReader).buf = (⟨[7]⟩ : ByteReader).buf.drop 1 ∧
    1 ≤ (⟨[7]⟩ : ByteReader).buf.length :=
  c5_amended_cursor_discipline.1 1 ⟨[7]⟩ 7 ⟨[]⟩ (by decide)

/-- C6: for the generated code of
`struct helper a: u8, satisfy(a == 10) b: Option u8, c: u8 helper`:
encoding `{a: 10, b: some 9, c: 3}` produces exactly `[10, 9, 3]`;
encoding `{a: 4, b: some 99, c: 9}` produces exactly `[4, 9]` (the
predicate is false, so `b` is omitted); encoding `{a: 10, b: none, c: 9}`
fails with `InvalidData`; and on decode `b` is bound to `some` of the
decoded inner value exactly when the predicate over the already-bound `a`
is true, else to `none` with no bytes consumed for `b`. -/
theorem c6_satisfy_conditional :
    ABC.write ⟨10, some 9, 3⟩ ⟨[]⟩ = .ok ⟨[10, 9, 3]⟩ ∧
    ABC.write ⟨4, some 99, 9⟩ ⟨[]⟩ = .ok ⟨[4, 9]⟩ ∧
    ABC.write ⟨10, none, 9⟩ ⟨[]⟩
      = .error ⟨.invalidData,
          "Condition for field self.b was satisfied, but the field was not present!"⟩ ∧
    (∀ (v c : Nat) (rest : List Nat),
      ABC.read ⟨10 :: v :: c :: rest⟩ = .ok ⟨10, some v, c⟩ ⟨rest⟩) ∧
    (∀ (a v : Nat) (rest : List Nat), a ≠ 10 →
      ABC.read ⟨a :: v :: rest⟩ = .ok ⟨a, none, v⟩ ⟨rest⟩) := by
  refine ⟨by rfl, by rfl, by rfl, ?_, ?_⟩
  · intro v c rest
    simp [ABC.read, read_u8_cons]
  · intro a v rest hne
    have hbeq : (a == 10) = false := by simpa using hne
    simp [ABC.read, read_u8_cons, hbeq]

/-- Witness for C6: the predicate-false decode branch at `a = 4`. -/
theorem c6_satisfy_conditional_witness :
    ABC.read ⟨[4, 9]⟩ = .ok ⟨4, none, 9⟩ ⟨[]⟩ :=
  c6_satisfy_conditional.2.2.2.2 4 9 [] (by norm_num)

/-- C7: the generated `require(sibling)` / `if_present(sibling)` decode
fragments decode the inner type and bind `some value` on success and
`none` on any inner-decode failure, with the inner error discarded rather
than propagated; the `require` encode fragment fails with `InvalidData`
when the referenced sibling is absent, while the `if_present` encode
fragment succeeds and emits nothing when the sibling is absent. -/
theorem c7_require_if_present :
    (∀ (α β : Type) (rd : ByteReader → ReadResult α) (sib : Option β)
        (r : ByteReader) (v : α) (r' : ByteReader),
      sib.isSome = true → rd r = .ok v r' →
        require_read sib rd r = .ok (some v) r') ∧
    (∀ (α β : Type) (rd : ByteReader → ReadResult α) (sib : Option β)
        (r : ByteReader) (e : IOError) (r' : ByteReader),
      sib.isSome = true → rd r = .err e r' →
        require_read sib rd r = .ok none r') ∧
    (∀ (α : Type) (rd : ByteReader → ReadResult α)
        (r : ByteReader) (v : α) (r' : ByteReader),
      rd r = .ok v r' → if_present_read rd r = .ok (some v) r') ∧
    (∀ (α : Type) (rd : ByteReader → ReadResult α)
        (r : ByteReader) (e : IOError) (r' : ByteReader),
      rd r = .err e r' → if_present_read rd r = .ok none r') ∧
    (∀ (α β : Type) (wr : α → ByteWriter → Except IOError ByteWriter)
        (field : Option α) (w : ByteWriter),
      require_write (none : Option β) field wr w
        = .err ⟨.invalidData, "Cannot write a field that is required but not present!"⟩) ∧
    (∀ (α β : Type) (wr : α → ByteWriter → Except IOError ByteWriter)
        (field : Option α) (w : ByteWriter),
      if_present_write (none : Option β) field wr w = .ok w) := by
  refine ⟨?_, ?_, ?_, ?_, ?_, ?_⟩
  · intro α β rd sib r v r' hsib hrd
    cases sib with
    | none => simp at hsib
    | some b => simp [require_read, hrd]
  · intro α β rd sib r e r' hsib hrd
    cases sib with
    | none => simp at hsib
    | some b => simp [require_read, hrd]
  · intro α rd r v r' hrd
    simp [if_present_read, hrd]
  · intro α rd r e r' hrd
    simp [if_present_read, hrd]
  · intro α β wr field w
    rfl
  · intro α β wr field w
    rfl

/-- Witness for C7: a present sibling with a successful one-byte inner
decode, and an inner-decode failure being swallowed to `none`. -/
theorem c7_require_if_present_witness :
    require_read (some 0) (fun r => ByteReader.read_u8 r) ⟨[9]⟩ = .ok (some 9) ⟨[]⟩ ∧
    if_present_read (fun r => ByteReader.read_u8 r) ⟨[]⟩ = .ok none ⟨[]⟩ := by
  constructor
  · exact c7_require_if_present.1 Nat Nat (fun r => ByteReader.read_u8 r)
      (some 0) ⟨[9]⟩ 9 ⟨[]⟩ rfl (by decide)
  · exact c7_require_if_present.2.2.2.1 Nat (fun r => ByteReader.read_u8 r)
      ⟨[]⟩ eofError ⟨[]⟩ (by decide)

/-- C8 counterexample: the enum `#[repr(u8)] enum Dup helper A = 0, B = 0`
has two variants resolving to the same discriminant, yet the derive
succeeds — there is no duplicate-discriminant check, so the claim that
such schemas are rejected is false. -/
theorem c8_counterexample_duplicates_accepted :
    derive_enum dupEnum = .ok [(0, 0), (0, 0)] ∧
    ¬ (resolve_discriminants none (dupEnum.variants.map (·.discriminant))).Nodup := by
  refine ⟨by rfl, ?_⟩
  decide

/-- C8 amended: the derive performs no duplicate-discriminant check —
an enum with duplicate discriminants is accepted, both variants reach the
generated code in declaration order, and the generated decode `match`
resolves the shared discriminant to the first declared arm. -/
theorem c8_amended_no_duplicate_check :
    derive_enum dupEnum = .ok [(0, 0), (0, 0)] ∧
    enum_match_arm [(0, 0), (0, 0)] 0 = some 0 := by
  refine ⟨by rfl, ?_⟩
  decide

theorem resolve_length (curr : Option Int) (ds : List (Option Int)) :
    (resolve_discriminants curr ds).length = ds.length := by
  induction ds generalizing curr with
  | nil => rfl
  | cons d rest ih =>
    simp only [resolve_discriminants]
    simp [ih]

theorem resolve_explicit : ∀ (ds : List (Option Int)) (curr : Option Int)
    (i : Nat) (v : Int), ds[i]? = some (some v) →
    (resolve_discriminants curr ds)[i]? = some v := by
  intro ds
  induction ds with
  | nil =>
    intro curr i v h
    simp at h
  | cons d rest ih =>
    intro curr i v h
    simp only [resolve_discriminants]
    match i with
    | 0 =>
      have hd : d = some v := by simpa using h
      subst hd
      simp
    | i + 1 =>
      simp only [List.getElem?_cons_succ]
      exact ih _ i v (by simpa using h)

theorem resolve_omitted_zero (ds : List (Option Int)) (h : ds[0]? = some none) :
    (resolve_discriminants none ds)[0]? = some 0 := by
  match ds with
  | [] => simp at h
  | d :: rest =>
    have hd : d = none := by simpa using h
    subst hd
    simp [resolve_discriminants]

theorem resolve_omitted_succ : ∀ (ds : List (Option Int)) (curr : Option Int)
    (i : Nat) (p : Int), ds[i + 1]? = some none →
    (resolve_discriminants curr ds)[i]? = some p →
    (resolve_discriminants curr ds)[i + 1]? = some (p + 1) := by
  intro ds
  induction ds with
  | nil =>
    intro curr i p h _
    simp at h
  | cons d rest ih =>
    intro curr i p h hp
    simp only [resolve_discriminants] at hp ⊢
    match i with
    | 0 =>
      match hrest : rest with
      | [] =>
        simp at h
      | r0 :: rest2 =>
        have hr0 : r0 = none := by simpa using h
        subst hr0
        rw [List.getElem?_cons_zero] at hp
        have hv := Option.some.inj hp
        simp only [List.getElem?_cons_succ, resolve_discriminants]
        simp [hv]
    | i + 1 =>
      simp only [List.getElem?_cons_succ] at hp ⊢
      exact ih _ i p (by simpa using h) hp

/-- C9: an omitted discriminant resolves to the previous variant's
discriminant plus one, or to 0 for the first variant (and an explicit one
to itself, with the resolved list matching the variants in length);
concretely `enum helper A, B(u8, u8), C(u8, u8, u8)` with `repr(u8)`
resolves to A = 0, B = 1, C = 2 with the payload arities 0, 2, 3, and the
generated writer encodes `B(1, 2)` as the discriminant byte followed by
the positional fields — exactly `[1, 1, 2]`. -/
theorem c9_discriminant_inference :
    (∀ (ds : List (Option Int)),
      (resolve_discriminants none ds).length = ds.length) ∧
    (∀ (ds : List (Option Int)) (i : Nat) (v : Int), ds[i]? = some (some v) →
      (resolve_discriminants none ds)[i]? = some v) ∧
    (∀ (ds : List (Option Int)), ds[0]? = some none →
      (resolve_discriminants none ds)[0]? = some 0) ∧
    (∀ (ds : List (Option Int)) (i : Nat) (p : Int), ds[i + 1]? = some none →
      (resolve_discriminants none ds)[i]? = some p →
      (resolve_discriminants none ds)[i + 1]? = some (p + 1)) ∧
    resolve_discriminants none [none, none, none] = [0, 1, 2] ∧
    derive_enum ⟨some "u8",
        [⟨none, [], .unit⟩, ⟨none, [], .unnamed 2⟩, ⟨none, [], .unnamed 3⟩]⟩
      = .ok [(0, 0), (1, 2), (2, 3)] ∧
    MyEnum.write (.B 1 2) ⟨[]⟩ = .ok ⟨[1, 1, 2]⟩ :=
  ⟨fun ds => resolve_length none ds,
    fun ds i v h => resolve_explicit ds none i v h,
    fun ds h => resolve_omitted_zero ds h,
    fun ds i p h hp => resolve_omitted_succ ds none i p h hp,
    by rfl, by rfl, by rfl⟩

/-- Witness for C9: `previous + 1` inference applied after an explicit
discriminant 5. -/
theorem c9_discriminant_inference_witness :
    (resolve_discriminants none [some 5, none])[1]? = some (5 + 1) :=
  c9_discriminant_inference.2.2.2.1 [some 5, none] 0 5 (by rfl)
    (c9_discriminant_inference.2.1 [some 5, none] 0 5 (by rfl))

/-- C10: `write_var_u64` succeeds on every 64-bit input, appending at
most 10 bytes; the "Varint is too long to be written to buffer" error
branch after the loop is unreachable — the writer never returns an error
for any input. -/
theorem c10_write_var_u64_total :
    (∀ (num : Nat) (w : ByteWriter), num < 2 ^ 64 →
      ∃ out : List Nat, w.write_var_u64 num = .ok ⟨w.buf ++ out⟩ ∧
        out.length ≤ 10) ∧
    (∀ (num : Nat) (w : ByteWriter) (e : IOError),
      w.write_var_u64 num ≠ .error e) := by
  constructor
  · intro num w h
    exact ⟨lebBytes num, write_var_u64_eq w num h,
      lebBytes_length_le 9 num (lt_of_lt_of_le h (by norm_num))⟩
  · intro num w e
    rw [ByteWriter.write_var_u64, and_two_pow_sub_one,
      write_var_u64_loop_eq 10 (num % 2 ^ 64) w
        (lt_of_lt_of_le (Nat.mod_lt num (by norm_num)) (by norm_num))
        (by norm_num)]
    simp

/-- Witness for C10: the bound applied at the largest 64-bit value. -/
theorem c10_write_var_u64_total_witness :
    ∃ out : List Nat,
      ByteWriter.write_var_u64 ⟨[]⟩ 18446744073709551615
        = .ok ⟨[] ++ out⟩ ∧ out.length ≤ 10 :=
  c10_write_var_u64_total.1 18446744073709551615 ⟨[]⟩ (by norm_num)

end BinaryUtil
